import Mathlib

/-!
Verification of the write-batch staging engine
(`turbopack/crates/turbo-persistence/src/write_batch.rs`).

The Rust code is shallowly embedded as pure Lean functions over an explicit
`WriteBatch` state.  Concurrency is sequentialised: every mutation names the
thread (`tid`) performing it, and the parallel phases of `finish` are executed
in spawn order.  Machine integers (`u32`) are modelled as `Nat` reduced modulo
`2 ^ 32` at every point where the Rust code performs 32-bit arithmetic.

The `Collector` type and the constants live in files of the repository that
are not part of the sources given here; they are modelled from the spec and
marked as such in their doc comments.
-/

namespace TurboPersistence

/-- The modulus of the 32-bit sequence-number counter (`AtomicU32`). -/
def u32size : Nat := 4294967296

/-- Modelled from the spec: the tuning constants of the engine
(`MAX_MEDIUM_VALUE_SIZE`, the two capacity size shifts, the key size
function of the generic `StoreKey`, the LZ4 compressor at the default
acceleration level, and the compile-time `FAMILIES` count).  The file
`constants.rs` is not among the given sources, so the concrete values are
left abstract. -/
structure Config (K : Type) where
  key_size : K → Nat
  max_small_value_size : Nat
  max_medium_value_size : Nat
  thread_local_size_shift : Nat
  global_size_shift : Nat
  compress : List Nat → List Nat
  families : Nat

/-- Modelled from the spec: the value part of a collector entry
(`collector_entry.rs` is not among the given sources).  `small` and
`medium` store the value inline, `blob` stores the sequence number of a
blob file, `tombstone` marks a delete. -/
inductive EntryValue : Type where
  | small (value : List Nat)
  | medium (value : List Nat)
  | blob (seq : Nat)
  | tombstone
deriving DecidableEq, Repr

/-- The byte length an entry value contributes to the running value-byte
total of a collector (inline values only). -/
def EntryValue.size : EntryValue → Nat
  | .small v => v.length
  | .medium v => v.length
  | .blob _ => 0
  | .tombstone => 0

/-- Modelled from the spec: an entry held by a collector, a key paired with
a value class. -/
structure CollectorEntry (K : Type) where
  key : K
  value : EntryValue
deriving DecidableEq, Repr

/-- Modelled from the spec: a bounded append-only buffer of entries for one
family, with running totals of key bytes and value bytes (`collector.rs`
is not among the given sources). -/
structure Collector (K : Type) where
  entries : List (CollectorEntry K)
  total_key_size : Nat
  total_value_size : Nat
deriving DecidableEq, Repr

/-- Modelled from the spec: a freshly constructed collector is empty with
zero counters. -/
def Collector.mkNew (K : Type) : Collector K := ⟨[], 0, 0⟩

/-- Modelled from the spec: `is_empty` tests whether the buffer holds no
entries. -/
def Collector.is_empty {K : Type} (c : Collector K) : Bool := c.entries.isEmpty

/-- Modelled from the spec: `is_full` is true once the cumulative key+value
byte cost reaches the class capacity, a power of two given by a size
shift. -/
def Collector.is_full {K : Type} (shift : Nat) (c : Collector K) : Bool :=
  decide (2 ^ shift ≤ c.total_key_size + c.total_value_size)

/-- Modelled from the spec: append one entry, adding its key bytes and its
inline value bytes to the totals. -/
def Collector.add_entry {K : Type} (cfg : Config K) (c : Collector K)
    (e : CollectorEntry K) : Collector K :=
  ⟨c.entries ++ [e], c.total_key_size + cfg.key_size e.key,
    c.total_value_size + e.value.size⟩

/-- Modelled from the spec: `put` appends a `Small` or `Medium` entry
(the class is a size hint with the same storage shape). -/
def Collector.put {K : Type} (cfg : Config K) (c : Collector K) (key : K)
    (value : List Nat) : Collector K :=
  c.add_entry cfg ⟨key, if value.length ≤ cfg.max_small_value_size then
    EntryValue.small value else EntryValue.medium value⟩

/-- Modelled from the spec: `put_blob` appends a `Blob` entry carrying a
sequence number; only key bytes are added to the totals. -/
def Collector.put_blob {K : Type} (cfg : Config K) (c : Collector K) (key : K)
    (seq : Nat) : Collector K :=
  c.add_entry cfg ⟨key, EntryValue.blob seq⟩

/-- Modelled from the spec: `delete` appends a tombstone entry. -/
def Collector.delete {K : Type} (cfg : Config K) (c : Collector K) (key : K) :
    Collector K :=
  c.add_entry cfg ⟨key, EntryValue.tombstone⟩

/-- Modelled from the spec: `drain` yields all entries in insertion order
and leaves the collector empty with zero counters. -/
def Collector.drain {K : Type} (c : Collector K) :
    List (CollectorEntry K) × Collector K :=
  (c.entries, Collector.mkNew K)

/-- Modelled from the spec: `clear` empties the buffer and resets the
counters. -/
def Collector.clear {K : Type} (_c : Collector K) : Collector K :=
  Collector.mkNew K

/-- The key order on entries used by `Collector.sorted`. -/
def entryLe {K : Type} [LinearOrder K] (a b : CollectorEntry K) : Prop :=
  a.key ≤ b.key

instance {K : Type} [LinearOrder K] : DecidableRel (entryLe (K := K)) :=
  fun a b => inferInstanceAs (Decidable (a.key ≤ b.key))

instance {K : Type} [LinearOrder K] : IsTotal (CollectorEntry K) entryLe :=
  ⟨fun a b => le_total a.key b.key⟩

instance {K : Type} [LinearOrder K] : IsTrans (CollectorEntry K) entryLe :=
  ⟨fun _ _ _ h h2 => le_trans h h2⟩

/-- Modelled from the spec: `sorted` stably sorts the entries by key
ascending and returns them together with the two byte totals, without
mutating the collector. -/
def Collector.sorted {K : Type} [LinearOrder K] (c : Collector K) :
    List (CollectorEntry K) × Nat × Nat :=
  (c.entries.insertionSort entryLe, c.total_key_size, c.total_value_size)

/-- A blob file as produced by `WriteBatch::create_blob`: its sequence
number (also encoded in the name), the on-disk bytes, and, as ghost data
justified by losslessness of the LZ4 block format, the original value. -/
structure BlobFile where
  seq : Nat
  name : String
  content : List Nat
  value : List Nat
deriving DecidableEq, Repr

/-- An SST file at the granularity the batch produces it: the family id and
the data handed to the external `StaticSortedFileBuilder`. -/
structure SstFile (K : Type) where
  family : Nat
  entries : List (CollectorEntry K)
  total_key_size : Nat
  total_value_size : Nat
  name : String
deriving DecidableEq, Repr

/-- The thread local state of a `WriteBatch`: one optional collector per
family plus the blob files created by this thread. -/
structure ThreadLocalState (K : Type) where
  collectors : List (Option (Collector K))
  new_blob_files : List BlobFile
deriving DecidableEq, Repr

/-- A fresh thread local state: no collectors, no blob files. -/
def ThreadLocalState.init {K : Type} (cfg : Config K) : ThreadLocalState K :=
  ⟨List.replicate cfg.families none, []⟩

/-- The result of a `WriteBatch::finish` operation. -/
structure FinishResult (K : Type) where
  sequence_number : Nat
  new_sst_files : List (Nat × SstFile K)
  new_blob_files : List BlobFile
deriving DecidableEq, Repr

/-- The write batch state: the sequence counter, the thread local states
(an association list keyed by thread id), the per-family shared
collectors, the accumulated SST list and the two idle pools. -/
structure WriteBatch (K : Type) where
  current_sequence_number : Nat
  thread_locals : List (Nat × ThreadLocalState K)
  collectors : List (Collector K)
  new_sst_files : List (Nat × SstFile K)
  idle_collectors : List (Collector K)
  idle_thread_local_collectors : List (Collector K)
deriving DecidableEq, Repr

/-- `WriteBatch::new`: fresh empty state with the given initial (32-bit)
sequence number. -/
def WriteBatch.new {K : Type} (cfg : Config K) (current : Nat) : WriteBatch K :=
  ⟨current % u32size, [], List.replicate cfg.families (Collector.mkNew K),
    [], [], []⟩

/-- `WriteBatch::reset`: store a new (32-bit) sequence number; nothing else
changes. -/
def WriteBatch.reset {K : Type} (wb : WriteBatch K) (current : Nat) :
    WriteBatch K :=
  { wb with current_sequence_number := current % u32size }

/-- `Vec::pop` from an idle pool, falling back on `Collector::new()` when
the pool is empty. -/
def popPool {K : Type} (l : List (Collector K)) :
    Collector K × List (Collector K) :=
  match l.getLast? with
  | some c => (c, l.dropLast)
  | none => (Collector.mkNew K, [])

/-- The atomic `fetch_add(1)` on the sequence counter followed by the `+ 1`
on the returned value, both in 32-bit arithmetic. -/
def WriteBatch.alloc_seq {K : Type} (wb : WriteBatch K) : Nat × WriteBatch K :=
  let seq := (wb.current_sequence_number + 1) % u32size
  (seq, { wb with current_sequence_number := seq })

/-- Big-endian byte encoding of a 32-bit value (the four bytes written by
`write_u32::<BE>`). -/
def u32be (n : Nat) : List Nat :=
  [n / 16777216 % 256, n / 65536 % 256, n / 256 % 256, n % 256]

/-- Big-endian decoding of a byte list (reading the blob header back). -/
def decodeBe32 (l : List Nat) : Nat :=
  l.foldl (fun a b => a * 256 + b) 0

/-- Left-pad a string with zeros to the given width (the `{:08}` format). -/
def zeroPad (width : Nat) (s : String) : String :=
  String.mk (List.replicate (width - s.length) '0') ++ s

/-- The file name `NNNNNNNN.blob` of a blob with the given sequence
number. -/
def blobFileName (seq : Nat) : String :=
  zeroPad 8 (Nat.repr seq) ++ ".blob"

/-- The file name `NNNNNNNN.sst` of an SST with the given sequence
number. -/
def sstFileName (seq : Nat) : String :=
  zeroPad 8 (Nat.repr seq) ++ ".sst"

/-- `WriteBatch::create_blob`: allocate a sequence number, frame the value
as a 4-byte big-endian length (the length cast to `u32`) followed by the
compressed block, and produce the named, flushed file together with the
sequence number. -/
def WriteBatch.create_blob {K : Type} (cfg : Config K) (wb : WriteBatch K)
    (value : List Nat) : (Nat × BlobFile) × WriteBatch K :=
  let (seq, wb) := wb.alloc_seq
  let buffer := u32be (value.length % u32size) ++ cfg.compress value
  ((seq, ⟨seq, blobFileName seq, buffer, value⟩), wb)

/-- `WriteBatch::create_sst_file`: allocate a sequence number and hand the
collector data (entries plus byte totals) for one family to the external
SST builder, producing the named file. -/
def WriteBatch.create_sst_file {K : Type} (wb : WriteBatch K)
    (family : Nat) (collector_data : List (CollectorEntry K) × Nat × Nat) :
    (Nat × SstFile K) × WriteBatch K :=
  let (seq, wb) := wb.alloc_seq
  ((seq, ⟨family, collector_data.1, collector_data.2.1, collector_data.2.2,
    sstFileName seq⟩), wb)

/-- One step of the drain loop of `flush_thread_local_collector`: append
the entry to the shared collector under the lock; when it becomes full,
swap it out for an idle (or fresh) one and queue it. -/
def flushStep {K : Type} (cfg : Config K)
    (st : Collector K × List (Collector K) × List (Collector K))
    (e : CollectorEntry K) :
    Collector K × List (Collector K) × List (Collector K) :=
  let shared := st.1.add_entry cfg e
  if shared.is_full cfg.global_size_shift then
    let (fresh, idle) := popPool st.2.2
    (fresh, st.2.1 ++ [shared], idle)
  else
    (shared, st.2.1, st.2.2)

/-- One step of the out-of-lock loop of `flush_thread_local_collector`:
write an SST from the sorted view of a full collector, clear it, push the
file pair onto the global SST list and return the collector to the idle
pool. -/
def sstFlushStep {K : Type} [LinearOrder K] (wb : WriteBatch K)
    (family : Nat) (full : Collector K) : WriteBatch K :=
  let r := wb.create_sst_file family full.sorted
  let cleared := full.clear
  { r.2 with new_sst_files := r.2.new_sst_files ++ [r.1],
             idle_collectors := r.2.idle_collectors ++ [cleared] }

/-- `WriteBatch::flush_thread_local_collector`: drain the given thread
local collector into the shared collector of the family under its lock,
swapping out the shared collector whenever it fills; then, outside the
lock, write one SST per swapped-out collector.  Returns the drained
collector together with the new batch state. -/
def WriteBatch.flush_thread_local_collector {K : Type} [LinearOrder K]
    (cfg : Config K) (wb : WriteBatch K) (family : Nat)
    (collector : Collector K) : Collector K × WriteBatch K :=
  let drained := collector.drain
  let start : Collector K × List (Collector K) × List (Collector K) :=
    (wb.collectors.getD family (Collector.mkNew K), [], wb.idle_collectors)
  let folded := drained.1.foldl (flushStep cfg) start
  let wb := { wb with collectors := wb.collectors.set family folded.1,
                      idle_collectors := folded.2.2 }
  let wb := folded.2.1.foldl (fun w full => sstFlushStep w family full) wb
  (drained.2, wb)

/-- Look up the thread local state for a thread. -/
def WriteBatch.tlState {K : Type} (wb : WriteBatch K) (tid : Nat) :
    Option (ThreadLocalState K) :=
  wb.thread_locals.lookup tid

/-- `ThreadLocal::get_or`: fetch the state of the calling thread, creating
a fresh one on first touch. -/
def WriteBatch.thread_local_state {K : Type} (cfg : Config K)
    (wb : WriteBatch K) (tid : Nat) : ThreadLocalState K × WriteBatch K :=
  match wb.thread_locals.lookup tid with
  | some st => (st, wb)
  | none =>
      let st := ThreadLocalState.init cfg
      (st, { wb with thread_locals := wb.thread_locals ++ [(tid, st)] })

/-- Replace the state stored for a thread id in the association list
(appending when absent). -/
def setTLList {K : Type} (l : List (Nat × ThreadLocalState K)) (tid : Nat)
    (st : ThreadLocalState K) : List (Nat × ThreadLocalState K) :=
  match l with
  | [] => [(tid, st)]
  | (t, s) :: rest =>
      if t = tid then (t, st) :: rest else (t, s) :: setTLList rest tid st

/-- Store a thread local state back into the batch. -/
def WriteBatch.setThreadLocal {K : Type} (wb : WriteBatch K) (tid : Nat)
    (st : ThreadLocalState K) : WriteBatch K :=
  { wb with thread_locals := setTLList wb.thread_locals tid st }

/-- Store the collector of one family of one thread (the write through the
mutable reference Rust keeps in the thread local slot). -/
def WriteBatch.setTLCollector {K : Type} (wb : WriteBatch K) (tid family : Nat)
    (c : Collector K) : WriteBatch K :=
  match wb.thread_locals.lookup tid with
  | some st =>
      wb.setThreadLocal tid
        { st with collectors := st.collectors.set family (some c) }
  | none => wb

/-- Append a blob file to the new-blob-files list of one thread
(`state.new_blob_files.push(file)`). -/
def WriteBatch.pushTLBlobFile {K : Type} (wb : WriteBatch K) (tid : Nat)
    (file : BlobFile) : WriteBatch K :=
  match wb.thread_locals.lookup tid with
  | some st =>
      wb.setThreadLocal tid
        { st with new_blob_files := st.new_blob_files ++ [file] }
  | none => wb

/-- `WriteBatch::thread_local_collector_mut`: fetch the thread local state,
acquire the collector of the family (popping the thread-local idle pool or
constructing a fresh one if the slot is empty), and flush it first when it
is full.  The resulting collector is left in the slot and returned. -/
def WriteBatch.thread_local_collector_mut {K : Type} [LinearOrder K]
    (cfg : Config K) (wb : WriteBatch K) (tid family : Nat) :
    Collector K × WriteBatch K :=
  let s := wb.thread_local_state cfg tid
  let a : Collector K × WriteBatch K :=
    match s.1.collectors.getD family none with
    | some c => (c, s.2)
    | none =>
        let p := popPool s.2.idle_thread_local_collectors
        (p.1, { s.2 with idle_thread_local_collectors := p.2 })
  let b : Collector K × WriteBatch K :=
    if a.1.is_full cfg.thread_local_size_shift then
      a.2.flush_thread_local_collector cfg family a.1
    else
      a
  (b.1, b.2.setTLCollector tid family b.1)

/-- `WriteBatch::put`: acquire the thread local collector for the family;
values up to `MAX_MEDIUM_VALUE_SIZE` are appended inline, larger values
are written to a fresh blob file whose sequence number is stored in a
`Blob` entry while the file handle is recorded in the thread local
list. -/
def WriteBatch.put {K : Type} [LinearOrder K] (cfg : Config K)
    (wb : WriteBatch K) (tid family : Nat) (key : K) (value : List Nat) :
    WriteBatch K :=
  let b := wb.thread_local_collector_mut cfg tid family
  if value.length ≤ cfg.max_medium_value_size then
    b.2.setTLCollector tid family (b.1.put cfg key value)
  else
    let r := b.2.create_blob cfg value
    let wb := r.2.setTLCollector tid family (b.1.put_blob cfg key r.1.1)
    wb.pushTLBlobFile tid r.1.2

/-- `WriteBatch::delete`: same prelude as `put`, then append a
tombstone. -/
def WriteBatch.delete {K : Type} [LinearOrder K] (cfg : Config K)
    (wb : WriteBatch K) (tid family : Nat) (key : K) : WriteBatch K :=
  let b := wb.thread_local_collector_mut cfg tid family
  b.2.setTLCollector tid family (b.1.delete cfg key)

/-- The key order on `(sequence number, SST file)` pairs used by the final
`sort_by_key` of `finish`. -/
def sstSeqLe {K : Type} (a b : Nat × SstFile K) : Prop := a.1 ≤ b.1

instance {K : Type} : DecidableRel (sstSeqLe (K := K)) :=
  fun a b => inferInstanceAs (Decidable (a.1 ≤ b.1))

instance {K : Type} : IsTotal (Nat × SstFile K) sstSeqLe :=
  ⟨fun a b => Nat.le_total a.1 b.1⟩

instance {K : Type} : IsTrans (Nat × SstFile K) sstSeqLe :=
  ⟨fun _ _ _ h h2 => Nat.le_trans h h2⟩

/-- The harvest loop at the start of `finish`: walk all thread local
states, splice their new-blob-files together and group their non-empty
collectors by family. -/
def harvestTL {K : Type} (cfg : Config K)
    (tls : List (Nat × ThreadLocalState K)) :
    List BlobFile × List (List (Collector K)) :=
  tls.foldl
    (fun acc p =>
      let blobs := acc.1 ++ p.2.new_blob_files
      let pending := p.2.collectors.enum.foldl
        (fun pend fc =>
          match fc.2 with
          | some c =>
              if c.is_empty then pend
              else pend.set fc.1 (pend.getD fc.1 [] ++ [c])
          | none => pend)
        acc.2
      (blobs, pending))
    ([], List.replicate cfg.families [])

/-- The structured-scope phase of `finish`, sequentialised in spawn order:
flush every pending thread local collector into its shared collector and
return it (drained) to the thread-local idle pool. -/
def scopePhase {K : Type} [LinearOrder K] (cfg : Config K)
    (pending : List (List (Collector K))) (wb : WriteBatch K) :
    WriteBatch K :=
  pending.enum.foldl
    (fun w fc =>
      fc.2.foldl
        (fun w c =>
          let r := w.flush_thread_local_collector cfg fc.1 c
          { r.2 with idle_thread_local_collectors :=
              r.2.idle_thread_local_collectors ++ [r.1] })
        w)
    wb

/-- The construction of the replacement shared-collector array in `finish`:
pop one idle (or fresh) collector per family. -/
def replacementCollectors {K : Type} (cfg : Config K) (wb : WriteBatch K) :
    List (Collector K) × WriteBatch K :=
  (List.range cfg.families).foldl
    (fun acc _ =>
      let p := popPool acc.2.idle_collectors
      (acc.1 ++ [p.1], { acc.2 with idle_collectors := p.2 }))
    ([], wb)

/-- The data-parallel reduction of the removed shared collectors in
`finish`, sequentialised in family order: each non-empty collector is
sorted, written as an SST appended to the local result list, cleared and
returned to the idle pool. -/
def reducePhase {K : Type} [LinearOrder K] (old : List (Collector K))
    (wb : WriteBatch K) (local_ssts : List (Nat × SstFile K)) :
    WriteBatch K × List (Nat × SstFile K) :=
  old.enum.foldl
    (fun acc fc =>
      if fc.2.is_empty then acc
      else
        let r := acc.1.create_sst_file fc.1 fc.2.sorted
        ({ r.2 with idle_collectors := r.2.idle_collectors ++ [fc.2.clear] },
          acc.2 ++ [r.1]))
    (wb, local_ssts)

/-- `WriteBatch::finish`: take the accumulated SST list into a local, walk
and empty the thread local states, flush their collectors through the
shared collectors, replace and reduce the shared collectors, sort the
local SST list by sequence number and return the result together with the
final state.  Note that the mid-finish flushes push the SSTs they create
onto the member list of the batch, which was already taken into the
local. -/
def WriteBatch.finish {K : Type} [LinearOrder K] (cfg : Config K)
    (wb : WriteBatch K) : FinishResult K × WriteBatch K :=
  let local_ssts := wb.new_sst_files
  let wb1 := { wb with new_sst_files := ([] : List (Nat × SstFile K)) }
  let harvested := harvestTL cfg wb1.thread_locals
  let wb2 := { wb1 with thread_locals :=
      wb1.thread_locals.map (fun p => (p.1, ThreadLocalState.init cfg)) }
  let wb3 := scopePhase cfg harvested.2 wb2
  let repl := replacementCollectors cfg wb3
  let old := repl.2.collectors
  let wb4 := { repl.2 with collectors := repl.1 }
  let red := reducePhase old wb4 local_ssts
  let sorted_ssts := red.2.insertionSort sstSeqLe
  (⟨red.1.current_sequence_number, sorted_ssts, harvested.1⟩, red.1)

/-- A mutation submitted to the batch: a `put` or a `delete`, tagged with
the thread performing it. -/
inductive Op (K : Type) where
  | put (tid family : Nat) (key : K) (value : List Nat)
  | del (tid family : Nat) (key : K)
deriving DecidableEq, Repr

/-- The family an operation addresses. -/
def Op.family {K : Type} : Op K → Nat
  | .put _ f _ _ => f
  | .del _ f _ => f

/-- Apply one mutation to the batch. -/
def applyOp {K : Type} [LinearOrder K] (cfg : Config K) (wb : WriteBatch K) :
    Op K → WriteBatch K
  | .put tid family key value => wb.put cfg tid family key value
  | .del tid family key => wb.delete cfg tid family key

/-- Apply a trace of mutations in order. -/
def applyOps {K : Type} [LinearOrder K] (cfg : Config K) (wb : WriteBatch K)
    (ops : List (Op K)) : WriteBatch K :=
  ops.foldl (applyOp cfg) wb

/-- A key paired with its accepted value or tombstone: the unit of the
conservation property. -/
inductive Mut (K : Type) where
  | val (key : K) (value : List Nat)
  | tomb (key : K)
deriving DecidableEq, Repr

/-- The mutation an operation asks the batch to accept. -/
def Op.mut {K : Type} : Op K → Mut K
  | .put _ _ k v => Mut.val k v
  | .del _ _ k => Mut.tomb k

/-- The multiset of mutations accepted by a trace. -/
def acceptedMuts {K : Type} (ops : List (Op K)) : Multiset (Mut K) :=
  (ops.map Op.mut : List (Mut K))

/-- Decode the value of a blob file referenced by sequence number (the
ghost original value of the unique file with that number). -/
def lookupBlobValue (blobs : List BlobFile) (seq : Nat) : List Nat :=
  ((blobs.find? (fun f => f.seq = seq)).map BlobFile.value).getD []

/-- The mutation an SST entry represents, with blob entries resolved
through the produced blob files. -/
def entryMut {K : Type} (blobs : List BlobFile) (e : CollectorEntry K) :
    Mut K :=
  match e.value with
  | .small v => Mut.val e.key v
  | .medium v => Mut.val e.key v
  | .blob s => Mut.val e.key (lookupBlobValue blobs s)
  | .tombstone => Mut.tomb e.key

/-- The multiset of mutations extractable from a set of SST files together
with the produced blob files. -/
def extractMuts {K : Type} (ssts : List (Nat × SstFile K))
    (blobs : List BlobFile) : Multiset (Mut K) :=
  ((ssts.flatMap (fun s => s.2.entries)).map (entryMut blobs) :
    List (Mut K))

/-- The blob files recorded across all thread local states of a batch. -/
def WriteBatch.allBlobFiles {K : Type} (wb : WriteBatch K) : List BlobFile :=
  wb.thread_locals.flatMap (fun p => p.2.new_blob_files)

/-- The collector currently held by a thread for a family. -/
def WriteBatch.tlCollector {K : Type} (wb : WriteBatch K) (tid family : Nat) :
    Option (Collector K) :=
  (wb.tlState tid).bind (fun st => st.collectors.getD family none)

/-- The blob files recorded by one thread. -/
def WriteBatch.tlBlobFiles {K : Type} (wb : WriteBatch K) (tid : Nat) :
    List BlobFile :=
  ((wb.tlState tid).map ThreadLocalState.new_blob_files).getD []

/-- The error-slot update performed by each spawned flush task in `finish`
(write_batch.rs lines 195-201): a failing task overwrites the
mutex-protected slot with its error, a succeeding task leaves it
untouched. -/
def recordFlushError {E : Type} (slot : Except E Unit) (r : Except E Unit) :
    Except E Unit :=
  match r with
  | .ok _ => slot
  | .error e => .error e

/-- The contents of the shared error slot after all spawned flush tasks of
`finish` have joined, with the task results listed in the order the
recordings happened; the slot is surfaced by `shared_error.into_inner()?`
(line 234). -/
def joinFlushErrors {E : Type} (results : List (Except E Unit)) :
    Except E Unit :=
  results.foldl recordFlushError (Except.ok ())

/-- The error of a task result, if any. -/
def taskError {E : Type} : Except E Unit → Option E
  | .error e => some e
  | .ok _ => none

/-- The first error among a list of task results, in recording order. -/
def firstFlushError {E : Type} (results : List (Except E Unit)) : Option E :=
  (results.filterMap taskError).head?

/-- The last error among a list of task results, in recording order. -/
def lastFlushError {E : Type} (results : List (Except E Unit)) : Option E :=
  (results.filterMap taskError).getLast?

/-- Both idle pools hold only empty collectors. -/
def PoolsEmpty {K : Type} (wb : WriteBatch K) : Prop :=
  (∀ c ∈ wb.idle_collectors, c.entries = []) ∧
    (∀ c ∈ wb.idle_thread_local_collectors, c.entries = [])

/-- Every SST file in the list has entries sorted non-decreasingly by
key. -/
def SortedSsts {K : Type} [LinearOrder K] (l : List (Nat × SstFile K)) :
    Prop :=
  ∀ p ∈ l, List.Sorted entryLe p.2.entries

/-- The multiset of sequence numbers stamped on the artifacts currently
recorded in the batch state (blob files in the thread locals, SST files in
the member list). -/
def seqMulti {K : Type} (wb : WriteBatch K) : Multiset Nat :=
  ((wb.allBlobFiles.map BlobFile.seq : List Nat) : Multiset Nat) +
    ((wb.new_sst_files.map Prod.fst : List Nat) : Multiset Nat)

/-- The number of artifacts currently recorded in the batch state. -/
def artifactCount {K : Type} (wb : WriteBatch K) : Nat :=
  wb.allBlobFiles.length + wb.new_sst_files.length

/-- The multiset of the `n` consecutive 32-bit sequence numbers starting at
`s`, each reduced modulo `2 ^ 32`. -/
def rangeMapped (s n : Nat) : Multiset Nat :=
  (((List.range' s n).map (fun x => x % u32size)) : List Nat)

/-- The sequence-number bookkeeping invariant: the counter equals the
initial value plus the number of artifacts allocated (in 32-bit
arithmetic), and the artifact sequence numbers are exactly the consecutive
values handed out by the fetch-add counter. -/
def SeqInv {K : Type} (initial : Nat) (wb : WriteBatch K) : Prop :=
  wb.current_sequence_number = (initial + artifactCount wb) % u32size ∧
    seqMulti wb = rangeMapped (initial + 1) (artifactCount wb)

/-- The conjunction of the reachable-state invariants used by the
sequence-number, pool-emptiness and SST-sortedness claims. -/
def BatchInv {K : Type} [LinearOrder K] (initial : Nat) (wb : WriteBatch K) :
    Prop :=
  SeqInv initial wb ∧ PoolsEmpty wb ∧ SortedSsts wb.new_sst_files

/-- The sequence numbers stamped on the artifacts a `finish` returns. -/
def resultSeqs {K : Type} (res : FinishResult K) : List Nat :=
  res.new_blob_files.map BlobFile.seq ++ res.new_sst_files.map Prod.fst

/-- The total number of artifacts allocated by a whole batch run: the blob
files and SST files returned by `finish` plus the SST files stranded on
the member list of the final state. -/
def finishArtifactCount {K : Type} (res : FinishResult K)
    (rest : WriteBatch K) : Nat :=
  res.new_blob_files.length + res.new_sst_files.length +
    rest.new_sst_files.length

/-- All thread local states carry one collector slot per family. -/
def TLWellFormed {K : Type} (cfg : Config K) (wb : WriteBatch K) : Prop :=
  ∀ p ∈ wb.thread_locals, p.2.collectors.length = cfg.families

/-- A concrete single-family configuration whose shared-collector capacity
is a single byte, so that the shared collector fills on every entry. -/
def cfgTiny : Config Nat :=
  ⟨fun _ => 1, 8, 8, 10, 0, fun v => v, 1⟩

/-- A concrete single-family configuration with roomy collector capacities
(1024 bytes for both classes). -/
def cfgRoomy : Config Nat :=
  ⟨fun _ => 1, 8, 8, 10, 10, fun v => v, 1⟩

theorem u32size_pos : 0 < u32size := by decide

theorem mod_u32_lt (n : Nat) : n % u32size < u32size :=
  Nat.mod_lt n u32size_pos

/-- Big-endian encoding then decoding recovers the value modulo `2 ^ 32`. -/
theorem decodeBe32_u32be (n : Nat) : decodeBe32 (u32be n) = n % u32size := by
  simp only [decodeBe32, u32be, List.foldl_cons, List.foldl_nil, u32size]
  omega

theorem zeroPad_length (w : Nat) (s : String) :
    (zeroPad w s).length = max w s.length := by
  simp only [zeroPad, String.length_append]
  rw [show (String.mk (List.replicate (w - s.length) '0')).length
      = (List.replicate (w - s.length) '0').length from rfl,
    List.length_replicate]
  omega

theorem blobFileName_length (seq : Nat) :
    (blobFileName seq).length = max 8 (Nat.repr seq).length + 5 := by
  simp only [blobFileName, String.length_append, zeroPad_length]
  rfl

/-- Claim C7: the `new_sst_files` list of the `FinishResult` returned by
`finish` is sorted ascending by sequence number (the final
`sort_by_key`). -/
theorem c7_finish_result_sorted_by_seq {K : Type} [LinearOrder K]
    (cfg : Config K) (wb : WriteBatch K) :
    List.Sorted sstSeqLe ((wb.finish cfg).1.new_sst_files) :=
  List.sorted_insertionSort sstSeqLe _

/-- The error slot after running the remaining tasks from a given slot
value holds the last error recorded, or the incoming slot value if no task
failed. -/
theorem foldl_recordFlushError {E : Type} (l : List (Except E Unit)) :
    ∀ slot : Except E Unit,
      l.foldl recordFlushError slot =
        match (l.filterMap taskError).getLast? with
        | some e => Except.error e
        | none => slot := by
  induction l with
  | nil => intro slot; simp
  | cons h t ih =>
      intro slot
      cases h with
      | ok u =>
          simp only [List.foldl_cons, List.filterMap_cons, recordFlushError,
            taskError]
          exact ih slot
      | error e =>
          simp only [List.foldl_cons, List.filterMap_cons, recordFlushError,
            taskError]
          rw [ih (Except.error e)]
          rw [List.getLast?_cons]
          cases (t.filterMap taskError).getLast? <;> simp

/-- Claim C3 (amended): the error slot shared by the parallel flush tasks of
`finish` holds the LAST error that was recorded (each failing task
overwrites the slot), and `finish` surfaces that value after all joins. -/
theorem c3_error_slot_holds_last_error {E : Type}
    (results : List (Except E Unit)) :
    joinFlushErrors results =
      match lastFlushError results with
      | some e => Except.error e
      | none => Except.ok () := by
  unfold joinFlushErrors lastFlushError
  exact foldl_recordFlushError results (Except.ok ())

/-- Counterexample for claim C3 as stated: with two failing tasks recorded
in order, the slot
ends up holding the second error, not the first one. -/
theorem c3_first_error_counterexample :
    joinFlushErrors [Except.error 0, Except.error 1] =
        (Except.error 1 : Except Nat Unit) ∧
      firstFlushError [Except.error 0, Except.error 1] = some 0 ∧
      (Except.error 1 : Except Nat Unit) ≠ Except.error 0 := by
  refine ⟨rfl, rfl, ?_⟩
  simp

/-- Claim C9 (amended): `reset(s)` stores only the new sequence number and leaves
every other field of the batch unchanged; the next artifact allocated
after the reset (blob or SST) receives sequence number `(s + 1) mod 2^32`,
which equals `s + 1` whenever no 32-bit overflow occurs. -/
theorem c9_reset_frame_and_next_seq {K : Type} (cfg : Config K)
    (wb : WriteBatch K) (s : Nat) (value : List Nat) (family : Nat)
    (data : List (CollectorEntry K) × Nat × Nat) :
    (wb.reset s).thread_locals = wb.thread_locals ∧
    (wb.reset s).collectors = wb.collectors ∧
    (wb.reset s).new_sst_files = wb.new_sst_files ∧
    (wb.reset s).idle_collectors = wb.idle_collectors ∧
    (wb.reset s).idle_thread_local_collectors =
      wb.idle_thread_local_collectors ∧
    (wb.reset s).current_sequence_number = s % u32size ∧
    ((wb.reset s).create_blob cfg value).1.1 = (s + 1) % u32size ∧
    ((wb.reset s).create_sst_file family data).1.1 = (s + 1) % u32size ∧
    (s + 1 < u32size →
      ((wb.reset s).create_blob cfg value).1.1 = s + 1 ∧
      ((wb.reset s).create_sst_file family data).1.1 = s + 1) := by
  have hb : ((wb.reset s).create_blob cfg value).1.1 = (s + 1) % u32size := by
    simp [WriteBatch.create_blob, WriteBatch.alloc_seq, WriteBatch.reset,
      Nat.mod_add_mod]
  have hs : ((wb.reset s).create_sst_file family data).1.1
      = (s + 1) % u32size := by
    simp [WriteBatch.create_sst_file, WriteBatch.alloc_seq, WriteBatch.reset,
      Nat.mod_add_mod]
  refine ⟨rfl, rfl, rfl, rfl, rfl, rfl, hb, hs, fun hlt => ?_⟩
  rw [hb, hs, Nat.mod_eq_of_lt hlt]
  exact ⟨rfl, rfl⟩

/-- Witness for claim C9: resetting a finished batch to 7 hands out
sequence number 8 to the next blob and the next SST. -/
theorem c9_reset_witness :
    (((((WriteBatch.new cfgRoomy 0).finish cfgRoomy).2).reset 7).create_blob
        cfgRoomy [1]).1.1 = 8 ∧
    (((((WriteBatch.new cfgRoomy 0).finish cfgRoomy).2).reset
        7).create_sst_file 0 ([], 0, 0)).1.1 = 8 :=
  (c9_reset_frame_and_next_seq cfgRoomy
    (((WriteBatch.new cfgRoomy 0).finish cfgRoomy).2) 7 [1] 0
    ([], 0, 0)).2.2.2.2.2.2.2.2 (by decide)

/-- Counterexample for claim C9 as stated: after `finish` and
`reset(u32::MAX)`, the next
allocated sequence number is 0, not `u32::MAX + 1`: the fetch-add wraps. -/
theorem c9_reset_counterexample :
    ((((((WriteBatch.new cfgRoomy 0).finish cfgRoomy).2).reset
        (u32size - 1)).create_blob cfgRoomy [42]).1.1 = 0) ∧
      (0 : Nat) ≠ u32size - 1 + 1 := by
  constructor
  · show ((((((WriteBatch.new cfgRoomy 0).finish cfgRoomy).2).reset
        (u32size - 1)).current_sequence_number + 1) % u32size) = 0
    decide
  · decide

/-- Claim C5: a successful `create_blob(value)` allocates the next sequence
number by a single fetch-add, names the file by the 8-digit zero-padded
sequence number with extension `.blob`, writes exactly the 4-byte
big-endian original length followed by the compressed block, and returns
the pair of sequence number and file while only the counter of the batch
changes. -/
theorem c5_create_blob_spec {K : Type} (cfg : Config K) (wb : WriteBatch K)
    (value : List Nat) (hlen : value.length < u32size) :
    ((wb.create_blob cfg value).1.1
        = (wb.current_sequence_number + 1) % u32size) ∧
    (wb.create_blob cfg value).1.2.seq = (wb.create_blob cfg value).1.1 ∧
    (wb.create_blob cfg value).1.2.name
      = blobFileName (wb.create_blob cfg value).1.1 ∧
    (blobFileName (wb.create_blob cfg value).1.1).length
      = max 8 (Nat.repr (wb.create_blob cfg value).1.1).length + 5 ∧
    (wb.create_blob cfg value).1.2.content
      = u32be value.length ++ cfg.compress value ∧
    (u32be value.length).length = 4 ∧
    decodeBe32 (u32be value.length) = value.length ∧
    (wb.create_blob cfg value).2
      = { wb with current_sequence_number := (wb.create_blob cfg value).1.1 }
    := by
  refine ⟨rfl, rfl, rfl, blobFileName_length _, ?_, rfl, ?_, rfl⟩
  · show u32be (value.length % u32size) ++ cfg.compress value
        = u32be value.length ++ cfg.compress value
    rw [Nat.mod_eq_of_lt hlen]
  · rw [decodeBe32_u32be, Nat.mod_eq_of_lt hlen]

/-- Witness for claim C5 at a concrete three-byte value. -/
theorem c5_create_blob_witness :
    (((WriteBatch.new cfgRoomy 0).create_blob cfgRoomy [1, 2, 3]).1.1 = 1) ∧
    ((WriteBatch.new cfgRoomy 0).create_blob cfgRoomy [1, 2, 3]).1.2.name
      = blobFileName 1 ∧
    ((WriteBatch.new cfgRoomy 0).create_blob cfgRoomy [1, 2, 3]).1.2.content
      = u32be 3 ++ [1, 2, 3] ∧
    decodeBe32 (u32be 3) = 3 := by
  have h := c5_create_blob_spec cfgRoomy (WriteBatch.new cfgRoomy 0) [1, 2, 3]
    (by decide)
  exact ⟨h.1, h.2.2.1, h.2.2.2.2.1, h.2.2.2.2.2.2.1⟩

/-- Claim C10: the 4-byte header of a blob file is the big-endian encoding
of the
value length reduced modulo `2 ^ 32` (`value.len() as u32`): for lengths
below `2 ^ 32` the header decodes to the exact length, while for a value
of length exactly `2 ^ 32` the header silently decodes to a different
(truncated) number. -/
theorem c10_blob_header_truncates {K : Type} (cfg : Config K)
    (wb : WriteBatch K) (value : List Nat) :
    ((wb.create_blob cfg value).1.2.content.take 4
        = u32be (value.length % u32size)) ∧
    decodeBe32 ((wb.create_blob cfg value).1.2.content.take 4)
      = value.length % u32size ∧
    (value.length < u32size →
      decodeBe32 ((wb.create_blob cfg value).1.2.content.take 4)
        = value.length) ∧
    (value.length = u32size →
      decodeBe32 ((wb.create_blob cfg value).1.2.content.take 4)
        ≠ value.length) := by
  have htake : (wb.create_blob cfg value).1.2.content.take 4
      = u32be (value.length % u32size) := by
    show (u32be (value.length % u32size) ++ cfg.compress value).take 4
        = u32be (value.length % u32size)
    simp [u32be, List.take]
  refine ⟨htake, ?_, ?_, ?_⟩
  · rw [htake, decodeBe32_u32be, Nat.mod_mod_of_dvd _ dvd_rfl]
  · intro hlt
    rw [htake, decodeBe32_u32be, Nat.mod_eq_of_lt (mod_u32_lt _),
      Nat.mod_eq_of_lt hlt]
  · intro heq
    rw [htake, decodeBe32_u32be, heq]
    simp [u32size]

/-- Witness for claim C10: a value of length exactly `2 ^ 32` gets a header
that
does not decode back to its length. -/
theorem c10_blob_header_witness :
    decodeBe32 (((WriteBatch.new cfgRoomy 0).create_blob cfgRoomy
        (List.replicate u32size 0)).1.2.content.take 4) ≠ u32size := by
  have h := (c10_blob_header_truncates cfgRoomy (WriteBatch.new cfgRoomy 0)
    (List.replicate u32size 0)).2.2.2 (by simp)
  simpa using h


theorem lookup_setTLList_self {K : Type} (l : List (Nat × ThreadLocalState K))
    (tid : Nat) (st : ThreadLocalState K) :
    (setTLList l tid st).lookup tid = some st := by
  induction l with
  | nil => simp [setTLList, List.lookup]
  | cons p rest ih =>
      obtain ⟨t, s⟩ := p
      by_cases ht : t = tid
      · subst ht
        simp [setTLList, List.lookup]
      · have hbe : (tid == t) = false := by
          simp [beq_eq_false_iff_ne]
          exact fun hh => ht hh.symm
        simp only [setTLList, if_neg ht, List.lookup, hbe]
        exact ih

theorem lookup_append_pair {K : Type} (l : List (Nat × ThreadLocalState K))
    (tid : Nat) (st : ThreadLocalState K) (h : l.lookup tid = none) :
    (l ++ [(tid, st)]).lookup tid = some st := by
  induction l with
  | nil => simp [List.lookup]
  | cons p rest ih =>
      obtain ⟨t, s⟩ := p
      by_cases h2 : tid = t
      · subst h2
        simp [List.lookup] at h
      · have hbe : (tid == t) = false := by
          simp [beq_eq_false_iff_ne, h2]
        simp only [List.lookup, hbe] at h
        simp only [List.cons_append, List.lookup, hbe]
        exact ih h

theorem lookup_mem {K : Type} :
    ∀ (l : List (Nat × ThreadLocalState K)) (tid : Nat)
      (st : ThreadLocalState K), l.lookup tid = some st → (tid, st) ∈ l := by
  intro l
  induction l with
  | nil => intro tid st h; simp [List.lookup] at h
  | cons p rest ih =>
      intro tid st h
      obtain ⟨t, s⟩ := p
      by_cases h2 : tid = t
      · subst h2
        simp only [List.lookup, beq_self_eq_true] at h
        injection h with h3
        subst h3
        exact List.mem_cons_self _ _
      · have hbe : (tid == t) = false := by
          simp [beq_eq_false_iff_ne, h2]
        simp only [List.lookup, hbe] at h
        exact List.mem_cons_of_mem _ (ih tid st h)

theorem flatMapBlobs_setTLList_eq {K : Type}
    (l : List (Nat × ThreadLocalState K)) (tid : Nat)
    (st st₀ : ThreadLocalState K) (h : l.lookup tid = some st₀)
    (hb : st.new_blob_files = st₀.new_blob_files) :
    (setTLList l tid st).flatMap (fun p => p.2.new_blob_files)
      = l.flatMap (fun p => p.2.new_blob_files) := by
  induction l with
  | nil => simp [List.lookup] at h
  | cons p rest ih =>
      obtain ⟨t, s⟩ := p
      by_cases ht : t = tid
      · subst ht
        simp only [List.lookup, beq_self_eq_true] at h
        injection h with h3
        subst h3
        simp [setTLList, List.flatMap_cons, hb]
      · have hbe : (tid == t) = false := by
          simp [beq_eq_false_iff_ne]
          exact fun hh => ht hh.symm
        simp only [List.lookup, hbe] at h
        simp only [setTLList, if_neg ht, List.flatMap_cons, ih h]

theorem flatMapBlobs_setTLList_push {K : Type}
    (l : List (Nat × ThreadLocalState K)) (tid : Nat)
    (st st₀ : ThreadLocalState K) (f : BlobFile)
    (h : l.lookup tid = some st₀)
    (hb : st.new_blob_files = st₀.new_blob_files ++ [f]) :
    ((setTLList l tid st).flatMap (fun p => p.2.new_blob_files)
        : Multiset BlobFile)
      = (l.flatMap (fun p => p.2.new_blob_files) : Multiset BlobFile)
          + {f} := by
  induction l with
  | nil => simp [List.lookup] at h
  | cons p rest ih =>
      obtain ⟨t, s⟩ := p
      by_cases ht : t = tid
      · subst ht
        simp only [List.lookup, beq_self_eq_true] at h
        injection h with h3
        subst h3
        simp [setTLList, List.flatMap_cons, hb, ← Multiset.coe_add,
          ← Multiset.coe_singleton, add_comm, add_assoc, add_left_comm]
        rw [Multiset.coe_add]
        rfl
      · have hbe : (tid == t) = false := by
          simp [beq_eq_false_iff_ne]
          exact fun hh => ht hh.symm
        simp only [List.lookup, hbe] at h
        simp only [setTLList, if_neg ht, List.flatMap_cons]
        simp only [← Multiset.coe_add]
        rw [ih h, ← add_assoc]

theorem sstFlushStep_frame {K : Type} [LinearOrder K] (wb : WriteBatch K)
    (family : Nat) (full : Collector K) :
    (sstFlushStep wb family full).thread_locals = wb.thread_locals ∧
    (sstFlushStep wb family full).collectors = wb.collectors ∧
    (sstFlushStep wb family full).idle_thread_local_collectors
      = wb.idle_thread_local_collectors :=
  ⟨rfl, rfl, rfl⟩

theorem sstFold_frame {K : Type} [LinearOrder K] (family : Nat) :
    ∀ (fulls : List (Collector K)) (wb : WriteBatch K),
      (fulls.foldl (fun w full => sstFlushStep w family full)
          wb).thread_locals = wb.thread_locals ∧
      (fulls.foldl (fun w full => sstFlushStep w family full)
          wb).collectors = wb.collectors ∧
      (fulls.foldl (fun w full => sstFlushStep w family full)
          wb).idle_thread_local_collectors
        = wb.idle_thread_local_collectors := by
  intro fulls
  induction fulls with
  | nil => intro wb; exact ⟨rfl, rfl, rfl⟩
  | cons full rest ih =>
      intro wb
      simp only [List.foldl_cons]
      refine ⟨?_, ?_, ?_⟩
      · exact ((ih _).1).trans (sstFlushStep_frame wb family full).1
      · exact ((ih _).2.1).trans (sstFlushStep_frame wb family full).2.1
      · exact ((ih _).2.2).trans (sstFlushStep_frame wb family full).2.2

theorem flush_tlc_frame {K : Type} [LinearOrder K] (cfg : Config K)
    (wb : WriteBatch K) (family : Nat) (c : Collector K) :
    ((wb.flush_thread_local_collector cfg family c).2).thread_locals
        = wb.thread_locals ∧
    (wb.flush_thread_local_collector cfg family c).1 = Collector.mkNew K := by
  unfold WriteBatch.flush_thread_local_collector
  refine ⟨?_, rfl⟩
  exact (sstFold_frame family _ _).1

theorem flush_tlc_tlState {K : Type} [LinearOrder K] (cfg : Config K)
    (wb : WriteBatch K) (family : Nat) (c : Collector K) (tid : Nat) :
    ((wb.flush_thread_local_collector cfg family c).2).tlState tid
      = wb.tlState tid := by
  unfold WriteBatch.tlState
  rw [(flush_tlc_frame cfg wb family c).1]

theorem flush_tlc_allBlobFiles {K : Type} [LinearOrder K] (cfg : Config K)
    (wb : WriteBatch K) (family : Nat) (c : Collector K) :
    ((wb.flush_thread_local_collector cfg family c).2).allBlobFiles
      = wb.allBlobFiles := by
  unfold WriteBatch.allBlobFiles
  rw [(flush_tlc_frame cfg wb family c).1]

theorem flush_tlc_tlBlobFiles {K : Type} [LinearOrder K] (cfg : Config K)
    (wb : WriteBatch K) (family : Nat) (c : Collector K) (tid : Nat) :
    ((wb.flush_thread_local_collector cfg family c).2).tlBlobFiles tid
      = wb.tlBlobFiles tid := by
  unfold WriteBatch.tlBlobFiles
  rw [flush_tlc_tlState]

theorem thread_local_state_spec {K : Type} (cfg : Config K)
    (wb : WriteBatch K) (tid : Nat) :
    ((wb.thread_local_state cfg tid).2).tlState tid
        = some (wb.thread_local_state cfg tid).1 ∧
    ((wb.thread_local_state cfg tid).2).allBlobFiles = wb.allBlobFiles ∧
    (wb.thread_local_state cfg tid).1.new_blob_files = wb.tlBlobFiles tid ∧
    ((wb.thread_local_state cfg tid).2).current_sequence_number
      = wb.current_sequence_number ∧
    ((wb.thread_local_state cfg tid).2).collectors = wb.collectors ∧
    ((wb.thread_local_state cfg tid).2).new_sst_files = wb.new_sst_files ∧
    ((wb.thread_local_state cfg tid).2).idle_collectors
      = wb.idle_collectors ∧
    ((wb.thread_local_state cfg tid).2).idle_thread_local_collectors
      = wb.idle_thread_local_collectors ∧
    (TLWellFormed cfg wb →
      (wb.thread_local_state cfg tid).1.collectors.length = cfg.families) := by
  unfold WriteBatch.thread_local_state
  cases hl : wb.thread_locals.lookup tid with
  | some st =>
      refine ⟨hl, rfl, ?_, rfl, rfl, rfl, rfl, rfl, ?_⟩
      · unfold WriteBatch.tlBlobFiles WriteBatch.tlState
        rw [hl]
        rfl
      · intro hwf
        exact hwf (tid, st) (lookup_mem _ _ _ hl)
  | none =>
      refine ⟨?_, ?_, ?_, rfl, rfl, rfl, rfl, rfl, ?_⟩
      · exact lookup_append_pair _ _ _ hl
      · unfold WriteBatch.allBlobFiles
        simp [ThreadLocalState.init]
      · unfold WriteBatch.tlBlobFiles WriteBatch.tlState
        rw [hl]
        rfl
      · intro _
        simp [ThreadLocalState.init]

theorem setTLCollector_spec {K : Type} (wb : WriteBatch K) (tid family : Nat)
    (c : Collector K) (st₀ : ThreadLocalState K)
    (h : wb.tlState tid = some st₀)
    (hlen : family < st₀.collectors.length) :
    (wb.setTLCollector tid family c).tlState tid
        = some { st₀ with collectors := st₀.collectors.set family (some c) } ∧
    (wb.setTLCollector tid family c).tlCollector tid family = some c ∧
    (wb.setTLCollector tid family c).allBlobFiles = wb.allBlobFiles ∧
    (wb.setTLCollector tid family c).tlBlobFiles tid = wb.tlBlobFiles tid ∧
    (wb.setTLCollector tid family c).current_sequence_number
      = wb.current_sequence_number ∧
    (wb.setTLCollector tid family c).collectors = wb.collectors ∧
    (wb.setTLCollector tid family c).new_sst_files = wb.new_sst_files ∧
    (wb.setTLCollector tid family c).idle_collectors = wb.idle_collectors ∧
    (wb.setTLCollector tid family c).idle_thread_local_collectors
      = wb.idle_thread_local_collectors := by
  have hl : wb.thread_locals.lookup tid = some st₀ := h
  unfold WriteBatch.setTLCollector
  rw [hl]
  have hstate : ∀ st : ThreadLocalState K,
      (wb.setThreadLocal tid st).tlState tid = some st := by
    intro st
    unfold WriteBatch.setThreadLocal WriteBatch.tlState
    exact lookup_setTLList_self _ _ _
  refine ⟨hstate _, ?_, ?_, ?_, rfl, rfl, rfl, rfl, rfl⟩
  · unfold WriteBatch.tlCollector
    rw [hstate _]
    show (st₀.collectors.set family (some c)).getD family none = some c
    rw [List.getD_eq_getElem?_getD, List.getElem?_set_self (by exact hlen)]
    rfl
  · unfold WriteBatch.setThreadLocal WriteBatch.allBlobFiles
    exact flatMapBlobs_setTLList_eq _ _ _ _ hl rfl
  · unfold WriteBatch.tlBlobFiles
    rw [hstate _, h]
    rfl

theorem pushTLBlobFile_spec {K : Type} (wb : WriteBatch K) (tid : Nat)
    (file : BlobFile) (st₀ : ThreadLocalState K)
    (h : wb.tlState tid = some st₀) :
    (wb.pushTLBlobFile tid file).tlState tid
        = some { st₀ with
            new_blob_files := st₀.new_blob_files ++ [file] } ∧
    (wb.pushTLBlobFile tid file).tlBlobFiles tid
      = wb.tlBlobFiles tid ++ [file] ∧
    ((wb.pushTLBlobFile tid file).allBlobFiles : Multiset BlobFile)
      = (wb.allBlobFiles : Multiset BlobFile) + {file} ∧
    (∀ fam : Nat, (wb.pushTLBlobFile tid file).tlCollector tid fam
      = wb.tlCollector tid fam) ∧
    (wb.pushTLBlobFile tid file).current_sequence_number
      = wb.current_sequence_number ∧
    (wb.pushTLBlobFile tid file).collectors = wb.collectors ∧
    (wb.pushTLBlobFile tid file).new_sst_files = wb.new_sst_files ∧
    (wb.pushTLBlobFile tid file).idle_collectors = wb.idle_collectors ∧
    (wb.pushTLBlobFile tid file).idle_thread_local_collectors
      = wb.idle_thread_local_collectors := by
  have hl : wb.thread_locals.lookup tid = some st₀ := h
  unfold WriteBatch.pushTLBlobFile
  rw [hl]
  have hstate : ∀ st : ThreadLocalState K,
      (wb.setThreadLocal tid st).tlState tid = some st := by
    intro st
    unfold WriteBatch.setThreadLocal WriteBatch.tlState
    exact lookup_setTLList_self _ _ _
  refine ⟨hstate _, ?_, ?_, ?_, rfl, rfl, rfl, rfl, rfl⟩
  · unfold WriteBatch.tlBlobFiles
    rw [hstate _, h]
    rfl
  · unfold WriteBatch.setThreadLocal WriteBatch.allBlobFiles
    exact flatMapBlobs_setTLList_push _ _ _ _ _ hl rfl
  · intro fam
    unfold WriteBatch.tlCollector
    rw [hstate _, h]
    rfl

theorem thread_local_collector_mut_spec {K : Type} [LinearOrder K]
    (cfg : Config K) (wb : WriteBatch K) (tid family : Nat)
    (hwf : TLWellFormed cfg wb) (hfam : family < cfg.families) :
    ∃ st : ThreadLocalState K,
      ((wb.thread_local_collector_mut cfg tid family).2).tlState tid
          = some st ∧
      st.collectors.length = cfg.families ∧
      st.new_blob_files = wb.tlBlobFiles tid ∧
      ((wb.thread_local_collector_mut cfg tid family).2).tlCollector tid
          family
        = some (wb.thread_local_collector_mut cfg tid family).1 ∧
      ((wb.thread_local_collector_mut cfg tid family).2).allBlobFiles
        = wb.allBlobFiles ∧
      ((wb.thread_local_collector_mut cfg tid family).2).tlBlobFiles tid
        = wb.tlBlobFiles tid := by
  have hspec := thread_local_state_spec cfg wb tid
  rcases h1 : wb.thread_local_state cfg tid with ⟨st₁, wb₁⟩
  rw [h1] at hspec
  dsimp only at hspec
  obtain ⟨hst, hblobs, hstblobs, _, _, _, _, _, hlen⟩ := hspec
  have hlen₁ : family < st₁.collectors.length := by
    rw [hlen hwf]; exact hfam
  unfold WriteBatch.thread_local_collector_mut
  rw [h1]
  dsimp only
  have hmain : ∀ (c : Collector K) (wb₂ : WriteBatch K),
      wb₂.tlState tid = some st₁ →
      wb₂.allBlobFiles = wb.allBlobFiles →
      wb₂.tlBlobFiles tid = wb.tlBlobFiles tid →
      ∃ st : ThreadLocalState K,
        ((wb₂.setTLCollector tid family c).tlState tid = some st) ∧
        st.collectors.length = cfg.families ∧
        st.new_blob_files = wb.tlBlobFiles tid ∧
        (wb₂.setTLCollector tid family c).tlCollector tid family = some c ∧
        (wb₂.setTLCollector tid family c).allBlobFiles = wb.allBlobFiles ∧
        (wb₂.setTLCollector tid family c).tlBlobFiles tid
          = wb.tlBlobFiles tid := by
    intro c wb₂ h2 h3 h4
    obtain ⟨hs1, hs2, hs3, hs4, _⟩ :=
      setTLCollector_spec wb₂ tid family c st₁ h2 hlen₁
    refine ⟨_, hs1, ?_, ?_, hs2, hs3.trans h3, hs4.trans h4⟩
    · simp only [List.length_set]
      exact hlen hwf
    · exact hstblobs
  have h4 : wb₁.tlBlobFiles tid = wb.tlBlobFiles tid := by
    unfold WriteBatch.tlBlobFiles
    rw [hst]
    exact hstblobs
  have hbranch : ∀ (c : Collector K) (wb₂ : WriteBatch K),
      wb₂.tlState tid = some st₁ →
      wb₂.allBlobFiles = wb.allBlobFiles →
      wb₂.tlBlobFiles tid = wb.tlBlobFiles tid →
      ∃ st : ThreadLocalState K,
        (((if c.is_full cfg.thread_local_size_shift then
              wb₂.flush_thread_local_collector cfg family c
            else (c, wb₂)).2).setTLCollector tid family
            (if c.is_full cfg.thread_local_size_shift then
              wb₂.flush_thread_local_collector cfg family c
            else (c, wb₂)).1).tlState tid = some st ∧
        st.collectors.length = cfg.families ∧
        st.new_blob_files = wb.tlBlobFiles tid ∧
        (((if c.is_full cfg.thread_local_size_shift then
              wb₂.flush_thread_local_collector cfg family c
            else (c, wb₂)).2).setTLCollector tid family
            (if c.is_full cfg.thread_local_size_shift then
              wb₂.flush_thread_local_collector cfg family c
            else (c, wb₂)).1).tlCollector tid family
          = some (if c.is_full cfg.thread_local_size_shift then
              wb₂.flush_thread_local_collector cfg family c
            else (c, wb₂)).1 ∧
        (((if c.is_full cfg.thread_local_size_shift then
              wb₂.flush_thread_local_collector cfg family c
            else (c, wb₂)).2).setTLCollector tid family
            (if c.is_full cfg.thread_local_size_shift then
              wb₂.flush_thread_local_collector cfg family c
            else (c, wb₂)).1).allBlobFiles = wb.allBlobFiles ∧
        (((if c.is_full cfg.thread_local_size_shift then
              wb₂.flush_thread_local_collector cfg family c
            else (c, wb₂)).2).setTLCollector tid family
            (if c.is_full cfg.thread_local_size_shift then
              wb₂.flush_thread_local_collector cfg family c
            else (c, wb₂)).1).tlBlobFiles tid = wb.tlBlobFiles tid := by
    intro c wb₂ h2 h3 h5
    by_cases hfull : c.is_full cfg.thread_local_size_shift
    · rw [if_pos hfull]
      refine hmain _ _ ?_ ?_ ?_
      · exact (flush_tlc_tlState cfg wb₂ family c tid).trans h2
      · exact (flush_tlc_allBlobFiles cfg wb₂ family c).trans h3
      · exact (flush_tlc_tlBlobFiles cfg wb₂ family c tid).trans h5
    · rw [if_neg hfull]
      exact hmain c wb₂ h2 h3 h5
  cases hslot : st₁.collectors.getD family none with
  | some c =>
      dsimp only
      exact hbranch c wb₁ hst hblobs h4
  | none =>
      dsimp only
      rcases hP : popPool wb₁.idle_thread_local_collectors with ⟨c0, pool⟩
      dsimp only
      exact hbranch c0 { wb₁ with idle_thread_local_collectors := pool }
        hst hblobs h4

theorem create_blob_eq {K : Type} (cfg : Config K) (wb : WriteBatch K)
    (v : List Nat) :
    wb.create_blob cfg v
      = (((wb.current_sequence_number + 1) % u32size,
          ⟨(wb.current_sequence_number + 1) % u32size,
            blobFileName ((wb.current_sequence_number + 1) % u32size),
            u32be (v.length % u32size) ++ cfg.compress v, v⟩),
        { wb with current_sequence_number :=
            (wb.current_sequence_number + 1) % u32size }) := rfl

theorem create_sst_file_eq {K : Type} (wb : WriteBatch K) (family : Nat)
    (data : List (CollectorEntry K) × Nat × Nat) :
    wb.create_sst_file family data
      = (((wb.current_sequence_number + 1) % u32size,
          ⟨family, data.1, data.2.1, data.2.2,
            sstFileName ((wb.current_sequence_number + 1) % u32size)⟩),
        { wb with current_sequence_number :=
            (wb.current_sequence_number + 1) % u32size }) := rfl

/-- Claim C4: for every `put(family, key, value)`, a value of at most
`MAX_MEDIUM_VALUE_SIZE` bytes is appended inline to the thread-local
collector and no blob file is created, while a larger value produces a
blob file whose sequence number is carried by the appended `Blob` entry
and whose handle is recorded in the calling thread new-blob-files
list. -/
theorem c4_put_blob_divert {K : Type} [LinearOrder K] (cfg : Config K)
    (wb : WriteBatch K) (tid family : Nat) (key : K) (value : List Nat)
    (hfam : family < cfg.families) (hwf : TLWellFormed cfg wb) :
    (value.length ≤ cfg.max_medium_value_size →
      (wb.put cfg tid family key value).allBlobFiles = wb.allBlobFiles ∧
      ∃ c : Collector K,
        (wb.put cfg tid family key value).tlCollector tid family
          = some (c.put cfg key value)) ∧
    (cfg.max_medium_value_size < value.length →
      ∃ (c : Collector K) (file : BlobFile),
        (wb.put cfg tid family key value).tlCollector tid family
          = some (c.put_blob cfg key file.seq) ∧
        (wb.put cfg tid family key value).tlBlobFiles tid
          = wb.tlBlobFiles tid ++ [file] ∧
        file.value = value ∧
        file.content = u32be (value.length % u32size)
          ++ cfg.compress value) := by
  obtain ⟨st, hstl, hlen, hstblobs, hcol, hab, htb⟩ :=
    thread_local_collector_mut_spec cfg wb tid family hwf hfam
  have hlen2 : family < st.collectors.length := by rw [hlen]; exact hfam
  unfold WriteBatch.put
  constructor
  · intro hv
    rw [if_pos hv]
    obtain ⟨_, hs2, hs3, _⟩ := setTLCollector_spec
      (wb.thread_local_collector_mut cfg tid family).2 tid family
      ((wb.thread_local_collector_mut cfg tid family).1.put cfg key value)
      st hstl hlen2
    exact ⟨hs3.trans hab, _, hs2⟩
  · intro hv
    rw [if_neg (not_le.mpr hv)]
    rw [create_blob_eq]
    dsimp only
    have hstl2 : (WriteBatch.mk
        (((wb.thread_local_collector_mut cfg tid
            family).2.current_sequence_number + 1) % u32size)
        (wb.thread_local_collector_mut cfg tid family).2.thread_locals
        (wb.thread_local_collector_mut cfg tid family).2.collectors
        (wb.thread_local_collector_mut cfg tid family).2.new_sst_files
        (wb.thread_local_collector_mut cfg tid family).2.idle_collectors
        (wb.thread_local_collector_mut cfg tid
          family).2.idle_thread_local_collectors).tlState tid
        = some st := hstl
    obtain ⟨hs1, hs2, hs3, hs4, _⟩ := setTLCollector_spec _ tid family
      ((wb.thread_local_collector_mut cfg tid family).1.put_blob cfg key
        (((wb.thread_local_collector_mut cfg tid
          family).2.current_sequence_number + 1) % u32size))
      st hstl2 hlen2
    obtain ⟨hp1, hp2, hp3, hp4, _⟩ := pushTLBlobFile_spec _ tid
      ⟨(((wb.thread_local_collector_mut cfg tid
          family).2.current_sequence_number + 1) % u32size),
        blobFileName (((wb.thread_local_collector_mut cfg tid
          family).2.current_sequence_number + 1) % u32size),
        u32be (value.length % u32size) ++ cfg.compress value, value⟩
      _ hs1
    refine ⟨(wb.thread_local_collector_mut cfg tid family).1,
      ⟨(((wb.thread_local_collector_mut cfg tid
          family).2.current_sequence_number + 1) % u32size),
        blobFileName (((wb.thread_local_collector_mut cfg tid
          family).2.current_sequence_number + 1) % u32size),
        u32be (value.length % u32size) ++ cfg.compress value, value⟩,
      ?_, ?_, rfl, rfl⟩
    · rw [hp4 family, hs2]
    · rw [hp2, hs4]
      have : (WriteBatch.mk
          (((wb.thread_local_collector_mut cfg tid
              family).2.current_sequence_number + 1) % u32size)
          (wb.thread_local_collector_mut cfg tid family).2.thread_locals
          (wb.thread_local_collector_mut cfg tid family).2.collectors
          (wb.thread_local_collector_mut cfg tid family).2.new_sst_files
          (wb.thread_local_collector_mut cfg tid family).2.idle_collectors
          (wb.thread_local_collector_mut cfg tid
            family).2.idle_thread_local_collectors).tlBlobFiles tid
          = (wb.thread_local_collector_mut cfg tid
              family).2.tlBlobFiles tid := rfl
      rw [this, htb]

/-- Witness for claim C4 at a concrete small put. -/
theorem c4_put_witness :
    ((WriteBatch.new cfgRoomy 0).put cfgRoomy 0 0 (5 : Nat) [9]).allBlobFiles
        = (WriteBatch.new cfgRoomy 0).allBlobFiles ∧
    ∃ c : Collector Nat,
      ((WriteBatch.new cfgRoomy 0).put cfgRoomy 0 0 (5 : Nat)
          [9]).tlCollector 0 0 = some (c.put cfgRoomy 5 [9]) :=
  (c4_put_blob_divert cfgRoomy (WriteBatch.new cfgRoomy 0) 0 0 5 [9]
    (by decide)
    (by intro p hp; exact absurd hp (List.not_mem_nil p))).1 (by decide)

theorem rangeMapped_zero (s : Nat) : rangeMapped s 0 = 0 := rfl

theorem rangeMapped_add (s a b : Nat) :
    rangeMapped s (a + b) = rangeMapped s a + rangeMapped (s + a) b := by
  unfold rangeMapped
  rw [show a + b = b + a from Nat.add_comm a b, ← List.range'_append_1,
    List.map_append, ← Multiset.coe_add]

theorem rangeMapped_succ_left (s n : Nat) :
    rangeMapped s (n + 1) = (s % u32size) ::ₘ rangeMapped (s + 1) n := by
  unfold rangeMapped
  rw [List.range'_succ, List.map_cons]
  rfl

theorem popPool_empty {K : Type} (l : List (Collector K))
    (h : ∀ c ∈ l, c.entries = []) :
    (popPool l).1.entries = [] ∧ ∀ c ∈ (popPool l).2, c.entries = [] := by
  unfold popPool
  cases hl : l.getLast? with
  | some c =>
      refine ⟨h c (List.mem_of_getLast?_eq_some hl), ?_⟩
      intro c2 hc2
      exact h c2 ((List.dropLast_sublist l).mem hc2)
  | none => exact ⟨rfl, by intro c hc; cases hc⟩

theorem flushFold_pools {K : Type} (cfg : Config K) :
    ∀ (entries : List (CollectorEntry K))
      (st : Collector K × List (Collector K) × List (Collector K)),
      (∀ c ∈ st.2.2, c.entries = []) →
      ∀ c ∈ (entries.foldl (flushStep cfg) st).2.2, c.entries = [] := by
  intro entries
  induction entries with
  | nil => intro st h; exact h
  | cons e rest ih =>
      intro st h
      simp only [List.foldl_cons]
      apply ih
      unfold flushStep
      by_cases hfull : (st.1.add_entry cfg e).is_full cfg.global_size_shift
      · rw [if_pos hfull]
        exact (popPool_empty _ h).2
      · rw [if_neg hfull]
        exact h

theorem sstFlushStep_eq {K : Type} [LinearOrder K] (wb : WriteBatch K)
    (family : Nat) (full : Collector K) :
    sstFlushStep wb family full
      = { wb with
          current_sequence_number :=
            (wb.current_sequence_number + 1) % u32size,
          new_sst_files := wb.new_sst_files
            ++ [((wb.current_sequence_number + 1) % u32size,
              ⟨family, full.sorted.1, full.sorted.2.1, full.sorted.2.2,
                sstFileName ((wb.current_sequence_number + 1) % u32size)⟩)],
          idle_collectors := wb.idle_collectors ++ [full.clear] } := rfl

theorem sstFold_spec {K : Type} [LinearOrder K] (family : Nat) :
    ∀ (fulls : List (Collector K)) (wb : WriteBatch K) (n : Nat),
      wb.current_sequence_number = n % u32size →
      ∃ L : List (Nat × SstFile K),
        (fulls.foldl (fun w full => sstFlushStep w family full)
            wb).current_sequence_number = (n + fulls.length) % u32size ∧
        (fulls.foldl (fun w full => sstFlushStep w family full)
            wb).new_sst_files = wb.new_sst_files ++ L ∧
        L.length = fulls.length ∧
        L.map Prod.fst
          = (List.range' (n + 1) fulls.length).map (fun x => x % u32size) ∧
        (∀ p ∈ L, List.Sorted entryLe p.2.entries) ∧
        (fulls.foldl (fun w full => sstFlushStep w family full)
            wb).thread_locals = wb.thread_locals ∧
        (fulls.foldl (fun w full => sstFlushStep w family full)
            wb).collectors = wb.collectors ∧
        (fulls.foldl (fun w full => sstFlushStep w family full)
            wb).idle_thread_local_collectors
          = wb.idle_thread_local_collectors ∧
        ((∀ c ∈ wb.idle_collectors, c.entries = []) →
          ∀ c ∈ (fulls.foldl (fun w full => sstFlushStep w family full)
              wb).idle_collectors, c.entries = []) := by
  intro fulls
  induction fulls with
  | nil =>
      intro wb n hcur
      exact ⟨[], by simpa using hcur, by simp, rfl, by simp, by simp,
        rfl, rfl, rfl, fun h => h⟩
  | cons full rest ih =>
      intro wb n hcur
      simp only [List.foldl_cons]
      have hstep : (sstFlushStep wb family full).current_sequence_number
          = (n + 1) % u32size := by
        rw [sstFlushStep_eq]
        show (wb.current_sequence_number + 1) % u32size = (n + 1) % u32size
        rw [hcur, Nat.mod_add_mod]
      obtain ⟨L, h1, h2, h3, h4, h5, h6, h7, h8, h9⟩ :=
        ih (sstFlushStep wb family full) (n + 1) hstep
      refine ⟨((wb.current_sequence_number + 1) % u32size,
        ⟨family, full.sorted.1, full.sorted.2.1, full.sorted.2.2,
          sstFileName ((wb.current_sequence_number + 1) % u32size)⟩) :: L,
        ?_, ?_, ?_, ?_, ?_, ?_, ?_, ?_, ?_⟩
      · rw [h1, List.length_cons]
        congr 1
        omega
      · rw [h2, sstFlushStep_eq]
        simp [List.append_assoc]
      · simp [h3]
      · simp only [List.length_cons, List.map_cons, h4, List.range'_succ,
          hcur, Nat.mod_add_mod]
      · intro p hp
        rcases List.mem_cons.1 hp with hp | hp
        · subst hp
          exact List.sorted_insertionSort entryLe _
        · exact h5 p hp
      · rw [h6, sstFlushStep_eq]
      · rw [h7, sstFlushStep_eq]
      · rw [h8, sstFlushStep_eq]
      · intro hpool c hc
        refine h9 ?_ c hc
        rw [sstFlushStep_eq]
        intro c2 hc2
        rcases List.mem_append.1 hc2 with hc2 | hc2
        · exact hpool c2 hc2
        · rcases List.mem_singleton.1 hc2 with rfl
          rfl

theorem flush_tlc_spec {K : Type} [LinearOrder K] (cfg : Config K)
    (wb : WriteBatch K) (family : Nat) (c : Collector K) (n : Nat)
    (hcur : wb.current_sequence_number = n % u32size)
    (hpool : ∀ c2 ∈ wb.idle_collectors, c2.entries = []) :
    ∃ (k : Nat) (L : List (Nat × SstFile K)),
      ((wb.flush_thread_local_collector cfg family
          c).2).current_sequence_number = (n + k) % u32size ∧
      ((wb.flush_thread_local_collector cfg family c).2).new_sst_files
        = wb.new_sst_files ++ L ∧
      L.length = k ∧
      L.map Prod.fst = (List.range' (n + 1) k).map (fun x => x % u32size) ∧
      (∀ p ∈ L, List.Sorted entryLe p.2.entries) ∧
      ((wb.flush_thread_local_collector cfg family c).2).thread_locals
        = wb.thread_locals ∧
      ((wb.flush_thread_local_collector cfg family
          c).2).idle_thread_local_collectors
        = wb.idle_thread_local_collectors ∧
      (∀ c2 ∈ ((wb.flush_thread_local_collector cfg family
          c).2).idle_collectors, c2.entries = []) ∧
      (wb.flush_thread_local_collector cfg family c).1
        = Collector.mkNew K := by
  unfold WriteBatch.flush_thread_local_collector
  dsimp only
  obtain ⟨L, h1, h2, h3, h4, h5, h6, h7, h8, h9⟩ :=
    sstFold_spec family
      (c.drain.1.foldl (flushStep cfg)
        (wb.collectors.getD family (Collector.mkNew K), [],
          wb.idle_collectors)).2.1
      { wb with
        collectors := wb.collectors.set family
          (c.drain.1.foldl (flushStep cfg)
            (wb.collectors.getD family (Collector.mkNew K), [],
              wb.idle_collectors)).1,
        idle_collectors := (c.drain.1.foldl (flushStep cfg)
          (wb.collectors.getD family (Collector.mkNew K), [],
            wb.idle_collectors)).2.2 }
      n hcur
  refine ⟨_, L, h1, h2, h3, h4, h5, h6, h8, ?_, rfl⟩
  apply h9
  exact flushFold_pools cfg c.drain.1 _ hpool

theorem BatchInv_congr {K : Type} [LinearOrder K] (initial : Nat)
    (wb w : WriteBatch K)
    (hcur : w.current_sequence_number = wb.current_sequence_number)
    (hblob : w.allBlobFiles = wb.allBlobFiles)
    (hssts : w.new_sst_files = wb.new_sst_files)
    (hic : w.idle_collectors = wb.idle_collectors)
    (hitc : w.idle_thread_local_collectors = wb.idle_thread_local_collectors)
    (h : BatchInv initial wb) : BatchInv initial w := by
  unfold BatchInv SeqInv PoolsEmpty at h ⊢
  obtain ⟨⟨hs1, hs2⟩, ⟨hp1, hp2⟩, hsort⟩ := h
  have hac : artifactCount w = artifactCount wb := by
    unfold artifactCount
    rw [hblob, hssts]
  have hsm : seqMulti w = seqMulti wb := by
    unfold seqMulti
    rw [hblob, hssts]
  refine ⟨⟨?_, ?_⟩, ⟨?_, ?_⟩, ?_⟩
  · rw [hcur, hac]; exact hs1
  · rw [hsm, hac]; exact hs2
  · rw [hic]; exact hp1
  · rw [hitc]; exact hp2
  · unfold SortedSsts at hsort ⊢
    rw [hssts]; exact hsort

theorem setTLCollector_BatchInv {K : Type} [LinearOrder K] (initial : Nat)
    (wb : WriteBatch K) (tid family : Nat) (c : Collector K)
    (h : BatchInv initial wb) :
    BatchInv initial (wb.setTLCollector tid family c) := by
  unfold WriteBatch.setTLCollector
  cases hl : wb.thread_locals.lookup tid with
  | none => exact h
  | some st =>
      refine BatchInv_congr initial wb _ rfl ?_ rfl rfl rfl h
      unfold WriteBatch.setThreadLocal WriteBatch.allBlobFiles
      exact flatMapBlobs_setTLList_eq _ _ _ _ hl rfl

theorem flush_tlc_BatchInv {K : Type} [LinearOrder K] (cfg : Config K)
    (initial : Nat) (w : WriteBatch K) (family : Nat) (c : Collector K)
    (hw : BatchInv initial w) :
    BatchInv initial ((w.flush_thread_local_collector cfg family c).2) := by
  unfold BatchInv SeqInv PoolsEmpty at hw
  obtain ⟨⟨hc1, hc2⟩, ⟨hp1, hp2⟩, hsort⟩ := hw
  obtain ⟨k, L, f1, f2, f3, f4, f5, f6, f7, f8, f9⟩ :=
    flush_tlc_spec cfg w family c (initial + artifactCount w) hc1 hp1
  have hblobeq : ((w.flush_thread_local_collector cfg family
      c).2).allBlobFiles = w.allBlobFiles := by
    unfold WriteBatch.allBlobFiles
    rw [f6]
  have hA : artifactCount ((w.flush_thread_local_collector cfg family c).2)
      = artifactCount w + k := by
    unfold artifactCount
    rw [hblobeq, f2, List.length_append, f3]
    omega
  unfold BatchInv SeqInv PoolsEmpty
  refine ⟨⟨?_, ?_⟩, ⟨f8, ?_⟩, ?_⟩
  · rw [f1, hA, ← Nat.add_assoc]
  · unfold seqMulti
    rw [hblobeq, f2, hA, List.map_append, ← Multiset.coe_add,
      ← add_assoc]
    have hL : ((L.map Prod.fst : List Nat) : Multiset Nat)
        = rangeMapped (initial + artifactCount w + 1) k := by
      rw [f4]; rfl
    rw [hL]
    unfold seqMulti at hc2
    rw [hc2, rangeMapped_add (initial + 1) (artifactCount w) k]
    congr 2
    omega
  · rw [f7]; exact hp2
  · unfold SortedSsts at hsort ⊢
    rw [f2]
    intro p hp
    rcases List.mem_append.1 hp with hp | hp
    · exact hsort p hp
    · exact f5 p hp

theorem tlcMut_BatchInv {K : Type} [LinearOrder K] (cfg : Config K)
    (initial : Nat) (wb : WriteBatch K) (tid family : Nat)
    (h : BatchInv initial wb) :
    BatchInv initial
      ((wb.thread_local_collector_mut cfg tid family).2) := by
  have hs := thread_local_state_spec cfg wb tid
  rcases h1 : wb.thread_local_state cfg tid with ⟨st₁, wb₁⟩
  rw [h1] at hs
  dsimp only at hs
  obtain ⟨hst, hblobs, hstb, hcur, hcols, hssts, hic, hitc, hlen⟩ := hs
  have hI1 : BatchInv initial wb₁ :=
    BatchInv_congr initial wb wb₁ hcur hblobs hssts hic hitc h
  unfold WriteBatch.thread_local_collector_mut
  rw [h1]
  dsimp only
  have hbr : ∀ (c : Collector K) (w : WriteBatch K), BatchInv initial w →
      BatchInv initial ((if c.is_full cfg.thread_local_size_shift then
        w.flush_thread_local_collector cfg family c else (c, w)).2) := by
    intro c w hw
    by_cases hfull : c.is_full cfg.thread_local_size_shift
    · rw [if_pos hfull]
      exact flush_tlc_BatchInv cfg initial w family c hw
    · rw [if_neg hfull]
      exact hw
  cases hslot : st₁.collectors.getD family none with
  | some c =>
      dsimp only
      exact setTLCollector_BatchInv initial _ tid family _ (hbr c wb₁ hI1)
  | none =>
      dsimp only
      refine setTLCollector_BatchInv initial _ tid family _
        (hbr (popPool wb₁.idle_thread_local_collectors).1
          { wb₁ with idle_thread_local_collectors :=
              (popPool wb₁.idle_thread_local_collectors).2 } ?_)
      unfold BatchInv SeqInv PoolsEmpty at hI1 ⊢
      exact ⟨hI1.1, ⟨hI1.2.1.1,
        (popPool_empty _ hI1.2.1.2).2⟩, hI1.2.2⟩

theorem rangeMapped_one (s : Nat) : rangeMapped s 1 = {s % u32size} := rfl

theorem setTLCollector_frame {K : Type} (wb : WriteBatch K)
    (tid family : Nat) (c : Collector K) :
    (wb.setTLCollector tid family c).current_sequence_number
        = wb.current_sequence_number ∧
    (wb.setTLCollector tid family c).new_sst_files = wb.new_sst_files ∧
    (wb.setTLCollector tid family c).idle_collectors = wb.idle_collectors ∧
    (wb.setTLCollector tid family c).idle_thread_local_collectors
      = wb.idle_thread_local_collectors ∧
    (wb.setTLCollector tid family c).allBlobFiles = wb.allBlobFiles := by
  unfold WriteBatch.setTLCollector
  cases hl : wb.thread_locals.lookup tid with
  | none => exact ⟨rfl, rfl, rfl, rfl, rfl⟩
  | some st =>
      refine ⟨rfl, rfl, rfl, rfl, ?_⟩
      unfold WriteBatch.setThreadLocal WriteBatch.allBlobFiles
      exact flatMapBlobs_setTLList_eq _ _ _ _ hl rfl

theorem setTLCollector_present {K : Type} (wb : WriteBatch K)
    (tid family : Nat) (c : Collector K) (st : ThreadLocalState K)
    (h : wb.tlState tid = some st) :
    ∃ st2 : ThreadLocalState K,
      (wb.setTLCollector tid family c).tlState tid = some st2 := by
  have hl : wb.thread_locals.lookup tid = some st := h
  unfold WriteBatch.setTLCollector
  rw [hl]
  exact ⟨_, lookup_setTLList_self _ _ _⟩

theorem tlcMut_present {K : Type} [LinearOrder K] (cfg : Config K)
    (wb : WriteBatch K) (tid family : Nat) :
    ∃ st : ThreadLocalState K,
      ((wb.thread_local_collector_mut cfg tid family).2).tlState tid
        = some st := by
  have hs := thread_local_state_spec cfg wb tid
  rcases h1 : wb.thread_local_state cfg tid with ⟨st₁, wb₁⟩
  rw [h1] at hs
  dsimp only at hs
  obtain ⟨hst, -⟩ := hs
  unfold WriteBatch.thread_local_collector_mut
  rw [h1]
  dsimp only
  have hbr : ∀ (c : Collector K) (w : WriteBatch K),
      w.tlState tid = some st₁ →
      ((if c.is_full cfg.thread_local_size_shift then
          w.flush_thread_local_collector cfg family c
        else (c, w)).2).tlState tid = some st₁ := by
    intro c w hw
    by_cases hfull : c.is_full cfg.thread_local_size_shift
    · rw [if_pos hfull]
      exact (flush_tlc_tlState cfg w family c tid).trans hw
    · rw [if_neg hfull]
      exact hw
  cases hslot : st₁.collectors.getD family none with
  | some c =>
      dsimp only
      exact setTLCollector_present _ tid family _ st₁ (hbr c wb₁ hst)
  | none =>
      dsimp only
      exact setTLCollector_present _ tid family _ st₁
        (hbr (popPool wb₁.idle_thread_local_collectors).1
          { wb₁ with idle_thread_local_collectors :=
              (popPool wb₁.idle_thread_local_collectors).2 } hst)

theorem put_BatchInv {K : Type} [LinearOrder K] (cfg : Config K)
    (initial : Nat) (wb : WriteBatch K) (tid family : Nat) (key : K)
    (value : List Nat) (h : BatchInv initial wb) :
    BatchInv initial (wb.put cfg tid family key value) := by
  have hb := tlcMut_BatchInv cfg initial wb tid family h
  obtain ⟨stp, hpres⟩ := tlcMut_present cfg wb tid family
  unfold WriteBatch.put
  by_cases hv : value.length ≤ cfg.max_medium_value_size
  · rw [if_pos hv]
    exact setTLCollector_BatchInv initial _ tid family _ hb
  · rw [if_neg hv]
    rw [create_blob_eq]
    dsimp only
    -- name the state after the thread-local acquire
    generalize hB : (wb.thread_local_collector_mut cfg tid family).2 = B
      at hb hpres
    generalize hc0 : (wb.thread_local_collector_mut cfg tid family).1 = c0
    -- the state with the counter advanced by the blob allocation
    set B1 : WriteBatch K := { B with current_sequence_number :=
      (B.current_sequence_number + 1) % u32size } with hB1
    have hpresB1 : B1.tlState tid = some stp := hpres
    have hsetpres := setTLCollector_present B1 tid family
      (c0.put_blob cfg key ((B.current_sequence_number + 1) % u32size))
      stp hpresB1
    obtain ⟨st2, hst2⟩ := hsetpres
    set B2 : WriteBatch K := B1.setTLCollector tid family
      (c0.put_blob cfg key ((B.current_sequence_number + 1) % u32size))
      with hB2
    obtain ⟨hp1, hp2, hp3, hp4, hp5, hp6, hp7, hp8, hp9⟩ :=
      pushTLBlobFile_spec B2 tid
        ⟨(B.current_sequence_number + 1) % u32size,
          blobFileName ((B.current_sequence_number + 1) % u32size),
          u32be (value.length % u32size) ++ cfg.compress value, value⟩
        st2 hst2
    obtain ⟨hf1, hf2, hf3, hf4, hf5⟩ := setTLCollector_frame B1 tid family
      (c0.put_blob cfg key ((B.current_sequence_number + 1) % u32size))
    unfold BatchInv SeqInv PoolsEmpty at hb ⊢
    obtain ⟨⟨hc1, hc2⟩, ⟨hq1, hq2⟩, hsort⟩ := hb
    have hcurB2 : B2.current_sequence_number
        = (initial + artifactCount B + 1) % u32size := by
      rw [hf1]
      show (B.current_sequence_number + 1) % u32size = _
      rw [hc1, Nat.mod_add_mod]
    have hAB2 : artifactCount (B2.pushTLBlobFile tid
        ⟨(B.current_sequence_number + 1) % u32size,
          blobFileName ((B.current_sequence_number + 1) % u32size),
          u32be (value.length % u32size) ++ cfg.compress value, value⟩)
        = artifactCount B + 1 := by
      unfold artifactCount
      have := congrArg Multiset.card hp3
      rw [Multiset.card_add, Multiset.coe_card, Multiset.coe_card] at this
      rw [hp7, hf2, this, hf5]
      simp only [Multiset.card_singleton]
      rw [show B1.allBlobFiles = B.allBlobFiles from rfl]
      omega
    refine ⟨⟨?_, ?_⟩, ⟨?_, ?_⟩, ?_⟩
    · rw [hp5, hAB2, hcurB2, ← Nat.add_assoc]
    · unfold seqMulti
      rw [hp7, hf2, hAB2]
      have hmap : ((((B2.pushTLBlobFile tid
          ⟨(B.current_sequence_number + 1) % u32size,
            blobFileName ((B.current_sequence_number + 1) % u32size),
            u32be (value.length % u32size) ++ cfg.compress value,
            value⟩).allBlobFiles).map BlobFile.seq : List Nat) :
          Multiset Nat)
          = ((B.allBlobFiles.map BlobFile.seq : List Nat) : Multiset Nat)
            + {(B.current_sequence_number + 1) % u32size} := by
        have := congrArg (Multiset.map BlobFile.seq) hp3
        rw [Multiset.map_coe, Multiset.map_add, Multiset.map_coe] at this
        rw [this, hf5]
        rfl
      rw [hmap]
      unfold seqMulti at hc2
      rw [add_right_comm, hc2, rangeMapped_add (initial + 1)
        (artifactCount B) 1, rangeMapped_one]
      congr 1
      rw [hc1, Nat.mod_add_mod]
      have harg : initial + artifactCount B + 1
          = initial + 1 + artifactCount B := by omega
      rw [harg]
    · rw [hp8, hf3]; exact hq1
    · rw [hp9, hf4]; exact hq2
    · unfold SortedSsts at hsort ⊢
      rw [hp7, hf2]; exact hsort

theorem delete_BatchInv {K : Type} [LinearOrder K] (cfg : Config K)
    (initial : Nat) (wb : WriteBatch K) (tid family : Nat) (key : K)
    (h : BatchInv initial wb) :
    BatchInv initial (wb.delete cfg tid family key) := by
  unfold WriteBatch.delete
  exact setTLCollector_BatchInv initial _ tid family _
    (tlcMut_BatchInv cfg initial wb tid family h)

theorem applyOps_BatchInv {K : Type} [LinearOrder K] (cfg : Config K)
    (initial : Nat) (ops : List (Op K)) :
    BatchInv initial (applyOps cfg (WriteBatch.new cfg initial) ops) := by
  have hbase : BatchInv initial (WriteBatch.new cfg initial) := by
    unfold BatchInv SeqInv PoolsEmpty WriteBatch.new seqMulti artifactCount
      WriteBatch.allBlobFiles SortedSsts
    refine ⟨⟨rfl, rfl⟩, ⟨?_, ?_⟩, ?_⟩
    · intro c hc; cases hc
    · intro c hc; cases hc
    · intro p hp; cases hp
  have hstep : ∀ (wb : WriteBatch K) (op : Op K), BatchInv initial wb →
      BatchInv initial (applyOp cfg wb op) := by
    intro wb op hwb
    cases op with
    | put tid family key value =>
        exact put_BatchInv cfg initial wb tid family key value hwb
    | del tid family key =>
        exact delete_BatchInv cfg initial wb tid family key hwb
  have hfold : ∀ (ops2 : List (Op K)) (wb : WriteBatch K),
      BatchInv initial wb →
      BatchInv initial (ops2.foldl (applyOp cfg) wb) := by
    intro ops2
    induction ops2 with
    | nil => intro wb hwb; exact hwb
    | cons op rest ih =>
        intro wb hwb
        exact ih _ (hstep wb op hwb)
  exact hfold ops _ hbase

theorem flatMap_const_nil {α β : Type} (l : List α) :
    l.flatMap (fun _ => ([] : List β)) = [] := by
  induction l with
  | nil => rfl
  | cons a rest ih => simp [List.flatMap_cons, ih]

theorem harvestTL_blobs {K : Type} (cfg : Config K)
    (tls : List (Nat × ThreadLocalState K)) :
    (harvestTL cfg tls).1 = tls.flatMap (fun p => p.2.new_blob_files) := by
  unfold harvestTL
  have hgen : ∀ (tls2 : List (Nat × ThreadLocalState K))
      (acc : List BlobFile × List (List (Collector K))),
      (tls2.foldl
        (fun acc p =>
          let blobs := acc.1 ++ p.2.new_blob_files
          let pending := p.2.collectors.enum.foldl
            (fun pend fc =>
              match fc.2 with
              | some c =>
                  if c.is_empty then pend
                  else pend.set fc.1 (pend.getD fc.1 [] ++ [c])
              | none => pend)
            acc.2
          (blobs, pending)) acc).1
        = acc.1 ++ tls2.flatMap (fun p => p.2.new_blob_files) := by
    intro tls2
    induction tls2 with
    | nil => intro acc; simp
    | cons p rest ih =>
        intro acc
        simp only [List.foldl_cons, List.flatMap_cons]
        rw [ih]
        simp [List.append_assoc]
  rw [hgen]
  simp

theorem scopeInner_spec {K : Type} [LinearOrder K] (cfg : Config K)
    (family : Nat) :
    ∀ (cs : List (Collector K)) (w : WriteBatch K) (n : Nat),
      w.current_sequence_number = n % u32size →
      (∀ c2 ∈ w.idle_collectors, c2.entries = []) →
      (∀ c2 ∈ w.idle_thread_local_collectors, c2.entries = []) →
      ∃ (k : Nat) (L : List (Nat × SstFile K)),
        (cs.foldl
          (fun w c =>
            let r := w.flush_thread_local_collector cfg family c
            { r.2 with idle_thread_local_collectors :=
                r.2.idle_thread_local_collectors ++ [r.1] })
          w).current_sequence_number = (n + k) % u32size ∧
        (cs.foldl
          (fun w c =>
            let r := w.flush_thread_local_collector cfg family c
            { r.2 with idle_thread_local_collectors :=
                r.2.idle_thread_local_collectors ++ [r.1] })
          w).new_sst_files = w.new_sst_files ++ L ∧
        L.length = k ∧
        L.map Prod.fst
          = (List.range' (n + 1) k).map (fun x => x % u32size) ∧
        (∀ p ∈ L, List.Sorted entryLe p.2.entries) ∧
        (cs.foldl
          (fun w c =>
            let r := w.flush_thread_local_collector cfg family c
            { r.2 with idle_thread_local_collectors :=
                r.2.idle_thread_local_collectors ++ [r.1] })
          w).thread_locals = w.thread_locals ∧
        (∀ c2 ∈ (cs.foldl
          (fun w c =>
            let r := w.flush_thread_local_collector cfg family c
            { r.2 with idle_thread_local_collectors :=
                r.2.idle_thread_local_collectors ++ [r.1] })
          w).idle_collectors, c2.entries = []) ∧
        (∀ c2 ∈ (cs.foldl
          (fun w c =>
            let r := w.flush_thread_local_collector cfg family c
            { r.2 with idle_thread_local_collectors :=
                r.2.idle_thread_local_collectors ++ [r.1] })
          w).idle_thread_local_collectors, c2.entries = []) := by
  intro cs
  induction cs with
  | nil =>
      intro w n hcur hic hitc
      refine ⟨0, [], ?_, ?_, rfl, rfl, ?_, rfl, hic, hitc⟩
      · simpa using hcur
      · simp
      · intro p hp; cases hp
  | cons c rest ih =>
      intro w n hcur hic hitc
      simp only [List.foldl_cons]
      obtain ⟨k1, L1, f1, f2, f3, f4, f5, f6, f7, f8, f9⟩ :=
        flush_tlc_spec cfg w family c n hcur hic
      set w1 := { (w.flush_thread_local_collector cfg family c).2 with
        idle_thread_local_collectors :=
          ((w.flush_thread_local_collector cfg family
            c).2).idle_thread_local_collectors
          ++ [(w.flush_thread_local_collector cfg family c).1] } with hw1
      have hcur1 : w1.current_sequence_number = (n + k1) % u32size := f1
      have hic1 : ∀ c2 ∈ w1.idle_collectors, c2.entries = [] := f8
      have hitc1 : ∀ c2 ∈ w1.idle_thread_local_collectors,
          c2.entries = [] := by
        show ∀ c2 ∈ ((w.flush_thread_local_collector cfg family
          c).2).idle_thread_local_collectors
          ++ [(w.flush_thread_local_collector cfg family c).1],
          c2.entries = []
        intro c2 hc2
        rcases List.mem_append.1 hc2 with hc2 | hc2
        · rw [f7] at hc2
          exact hitc c2 hc2
        · rcases List.mem_singleton.1 hc2 with rfl
          rw [f9]
          rfl
      obtain ⟨k2, L2, g1, g2, g3, g4, g5, g6, g7, g8⟩ :=
        ih w1 (n + k1) hcur1 hic1 hitc1
      refine ⟨k1 + k2, L1 ++ L2, ?_, ?_, ?_, ?_, ?_, ?_, g7, g8⟩
      · rw [g1]
        congr 1
        omega
      · rw [g2]
        have : w1.new_sst_files = w.new_sst_files ++ L1 := f2
        rw [this, List.append_assoc]
      · simp [f3, g3]
      · rw [List.map_append, f4, g4]
        have harg : n + k1 + 1 = n + 1 + k1 := by omega
        rw [harg, ← List.map_append, List.range'_append_1]
        have harg2 : k2 + k1 = k1 + k2 := by omega
        rw [harg2]
      · intro p hp
        rcases List.mem_append.1 hp with hp | hp
        · exact f5 p hp
        · exact g5 p hp
      · rw [g6]
        exact f6

theorem scopeOuter_spec {K : Type} [LinearOrder K] (cfg : Config K) :
    ∀ (lst : List (Nat × List (Collector K))) (w : WriteBatch K) (n : Nat),
      w.current_sequence_number = n % u32size →
      (∀ c2 ∈ w.idle_collectors, c2.entries = []) →
      (∀ c2 ∈ w.idle_thread_local_collectors, c2.entries = []) →
      ∃ (k : Nat) (L : List (Nat × SstFile K)),
        (lst.foldl
          (fun w fc =>
            fc.2.foldl
              (fun w c =>
                let r := w.flush_thread_local_collector cfg fc.1 c
                { r.2 with idle_thread_local_collectors :=
                    r.2.idle_thread_local_collectors ++ [r.1] })
              w)
          w).current_sequence_number = (n + k) % u32size ∧
        (lst.foldl
          (fun w fc =>
            fc.2.foldl
              (fun w c =>
                let r := w.flush_thread_local_collector cfg fc.1 c
                { r.2 with idle_thread_local_collectors :=
                    r.2.idle_thread_local_collectors ++ [r.1] })
              w)
          w).new_sst_files = w.new_sst_files ++ L ∧
        L.length = k ∧
        L.map Prod.fst
          = (List.range' (n + 1) k).map (fun x => x % u32size) ∧
        (∀ p ∈ L, List.Sorted entryLe p.2.entries) ∧
        (lst.foldl
          (fun w fc =>
            fc.2.foldl
              (fun w c =>
                let r := w.flush_thread_local_collector cfg fc.1 c
                { r.2 with idle_thread_local_collectors :=
                    r.2.idle_thread_local_collectors ++ [r.1] })
              w)
          w).thread_locals = w.thread_locals ∧
        (∀ c2 ∈ (lst.foldl
          (fun w fc =>
            fc.2.foldl
              (fun w c =>
                let r := w.flush_thread_local_collector cfg fc.1 c
                { r.2 with idle_thread_local_collectors :=
                    r.2.idle_thread_local_collectors ++ [r.1] })
              w)
          w).idle_collectors, c2.entries = []) ∧
        (∀ c2 ∈ (lst.foldl
          (fun w fc =>
            fc.2.foldl
              (fun w c =>
                let r := w.flush_thread_local_collector cfg fc.1 c
                { r.2 with idle_thread_local_collectors :=
                    r.2.idle_thread_local_collectors ++ [r.1] })
              w)
          w).idle_thread_local_collectors, c2.entries = []) := by
  intro lst
  induction lst with
  | nil =>
      intro w n hcur hic hitc
      refine ⟨0, [], ?_, ?_, rfl, rfl, ?_, rfl, hic, hitc⟩
      · simpa using hcur
      · simp
      · intro p hp; cases hp
  | cons fc rest ih =>
      intro w n hcur hic hitc
      simp only [List.foldl_cons]
      obtain ⟨k1, L1, f1, f2, f3, f4, f5, f6, f7, f8⟩ :=
        scopeInner_spec cfg fc.1 fc.2 w n hcur hic hitc
      obtain ⟨k2, L2, g1, g2, g3, g4, g5, g6, g7, g8⟩ :=
        ih _ (n + k1) f1 f7 f8
      refine ⟨k1 + k2, L1 ++ L2, ?_, ?_, ?_, ?_, ?_, ?_, g7, g8⟩
      · rw [g1]
        congr 1
        omega
      · rw [g2, f2, List.append_assoc]
      · simp [f3, g3]
      · rw [List.map_append, f4, g4]
        have harg : n + k1 + 1 = n + 1 + k1 := by omega
        rw [harg, ← List.map_append, List.range'_append_1]
        have harg2 : k2 + k1 = k1 + k2 := by omega
        rw [harg2]
      · intro p hp
        rcases List.mem_append.1 hp with hp | hp
        · exact f5 p hp
        · exact g5 p hp
      · rw [g6, f6]

theorem replacement_spec {K : Type} (cfg : Config K) :
    ∀ (l : List Nat) (acc : List (Collector K) × WriteBatch K),
      (∀ c2 ∈ acc.2.idle_collectors, c2.entries = []) →
      ((l.foldl
        (fun acc _ =>
          let p := popPool acc.2.idle_collectors
          (acc.1 ++ [p.1], { acc.2 with idle_collectors := p.2 }))
        acc).2.current_sequence_number = acc.2.current_sequence_number ∧
      (l.foldl
        (fun acc _ =>
          let p := popPool acc.2.idle_collectors
          (acc.1 ++ [p.1], { acc.2 with idle_collectors := p.2 }))
        acc).2.new_sst_files = acc.2.new_sst_files ∧
      (l.foldl
        (fun acc _ =>
          let p := popPool acc.2.idle_collectors
          (acc.1 ++ [p.1], { acc.2 with idle_collectors := p.2 }))
        acc).2.thread_locals = acc.2.thread_locals ∧
      (l.foldl
        (fun acc _ =>
          let p := popPool acc.2.idle_collectors
          (acc.1 ++ [p.1], { acc.2 with idle_collectors := p.2 }))
        acc).2.idle_thread_local_collectors
        = acc.2.idle_thread_local_collectors ∧
      (l.foldl
        (fun acc _ =>
          let p := popPool acc.2.idle_collectors
          (acc.1 ++ [p.1], { acc.2 with idle_collectors := p.2 }))
        acc).2.collectors = acc.2.collectors ∧
      (∀ c2 ∈ (l.foldl
        (fun acc _ =>
          let p := popPool acc.2.idle_collectors
          (acc.1 ++ [p.1], { acc.2 with idle_collectors := p.2 }))
        acc).2.idle_collectors, c2.entries = [])) := by
  intro l
  induction l with
  | nil => intro acc h; exact ⟨rfl, rfl, rfl, rfl, rfl, h⟩
  | cons a rest ih =>
      intro acc h
      simp only [List.foldl_cons]
      obtain ⟨g1, g2, g3, g4, g5, g6⟩ := ih
        (acc.1 ++ [(popPool acc.2.idle_collectors).1],
          { acc.2 with idle_collectors :=
              (popPool acc.2.idle_collectors).2 })
        (popPool_empty _ h).2
      exact ⟨g1, g2, g3, g4, g5, g6⟩

theorem reduce_spec {K : Type} [LinearOrder K] :
    ∀ (lst : List (Nat × Collector K))
      (acc : WriteBatch K × List (Nat × SstFile K)) (n : Nat),
      acc.1.current_sequence_number = n % u32size →
      (∀ c2 ∈ acc.1.idle_collectors, c2.entries = []) →
      ∃ (k : Nat) (L : List (Nat × SstFile K)),
        (lst.foldl
          (fun acc fc =>
            if fc.2.is_empty then acc
            else
              let r := acc.1.create_sst_file fc.1 fc.2.sorted
              ({ r.2 with idle_collectors :=
                  r.2.idle_collectors ++ [fc.2.clear] },
                acc.2 ++ [r.1]))
          acc).1.current_sequence_number = (n + k) % u32size ∧
        (lst.foldl
          (fun acc fc =>
            if fc.2.is_empty then acc
            else
              let r := acc.1.create_sst_file fc.1 fc.2.sorted
              ({ r.2 with idle_collectors :=
                  r.2.idle_collectors ++ [fc.2.clear] },
                acc.2 ++ [r.1]))
          acc).2 = acc.2 ++ L ∧
        L.length = k ∧
        L.map Prod.fst
          = (List.range' (n + 1) k).map (fun x => x % u32size) ∧
        (∀ p ∈ L, List.Sorted entryLe p.2.entries) ∧
        (lst.foldl
          (fun acc fc =>
            if fc.2.is_empty then acc
            else
              let r := acc.1.create_sst_file fc.1 fc.2.sorted
              ({ r.2 with idle_collectors :=
                  r.2.idle_collectors ++ [fc.2.clear] },
                acc.2 ++ [r.1]))
          acc).1.new_sst_files = acc.1.new_sst_files ∧
        (lst.foldl
          (fun acc fc =>
            if fc.2.is_empty then acc
            else
              let r := acc.1.create_sst_file fc.1 fc.2.sorted
              ({ r.2 with idle_collectors :=
                  r.2.idle_collectors ++ [fc.2.clear] },
                acc.2 ++ [r.1]))
          acc).1.thread_locals = acc.1.thread_locals ∧
        (lst.foldl
          (fun acc fc =>
            if fc.2.is_empty then acc
            else
              let r := acc.1.create_sst_file fc.1 fc.2.sorted
              ({ r.2 with idle_collectors :=
                  r.2.idle_collectors ++ [fc.2.clear] },
                acc.2 ++ [r.1]))
          acc).1.idle_thread_local_collectors
          = acc.1.idle_thread_local_collectors ∧
        (∀ c2 ∈ (lst.foldl
          (fun acc fc =>
            if fc.2.is_empty then acc
            else
              let r := acc.1.create_sst_file fc.1 fc.2.sorted
              ({ r.2 with idle_collectors :=
                  r.2.idle_collectors ++ [fc.2.clear] },
                acc.2 ++ [r.1]))
          acc).1.idle_collectors, c2.entries = []) := by
  intro lst
  induction lst with
  | nil =>
      intro acc n hcur hic
      refine ⟨0, [], ?_, ?_, rfl, rfl, ?_, rfl, rfl, rfl, hic⟩
      · simpa using hcur
      · simp
      · intro p hp; cases hp
  | cons fc rest ih =>
      intro acc n hcur hic
      simp only [List.foldl_cons]
      by_cases hemp : fc.2.is_empty
      · rw [if_pos hemp]
        exact ih acc n hcur hic
      · rw [if_neg hemp]
        rw [show ({ (acc.1.create_sst_file fc.1 fc.2.sorted).2 with
            idle_collectors :=
              (acc.1.create_sst_file fc.1
                fc.2.sorted).2.idle_collectors ++ [fc.2.clear] },
            acc.2 ++ [(acc.1.create_sst_file fc.1 fc.2.sorted).1])
            = (({ acc.1 with
                current_sequence_number :=
                  (acc.1.current_sequence_number + 1) % u32size,
                idle_collectors :=
                  acc.1.idle_collectors ++ [Collector.mkNew K] },
              acc.2 ++ [((acc.1.current_sequence_number + 1) % u32size,
                ⟨fc.1, fc.2.sorted.1, fc.2.sorted.2.1, fc.2.sorted.2.2,
                  sstFileName ((acc.1.current_sequence_number + 1)
                    % u32size)⟩)]) :
              WriteBatch K × List (Nat × SstFile K))
          from by rw [create_sst_file_eq]; rfl]
        have hcur2 : (({ acc.1 with
            current_sequence_number :=
              (acc.1.current_sequence_number + 1) % u32size,
            idle_collectors :=
              acc.1.idle_collectors ++ [Collector.mkNew K] } :
            WriteBatch K)).current_sequence_number
            = (n + 1) % u32size := by
          show (acc.1.current_sequence_number + 1) % u32size = _
          rw [hcur, Nat.mod_add_mod]
        have hic2 : ∀ c2 ∈ (({ acc.1 with
            current_sequence_number :=
              (acc.1.current_sequence_number + 1) % u32size,
            idle_collectors :=
              acc.1.idle_collectors ++ [Collector.mkNew K] } :
            WriteBatch K)).idle_collectors, c2.entries = [] := by
          intro c2 hc2
          rcases List.mem_append.1 hc2 with hc2 | hc2
          · exact hic c2 hc2
          · rcases List.mem_singleton.1 hc2 with rfl
            rfl
        obtain ⟨k2, L2, g1, g2, g3, g4, g5, g6, g7, g8, g9⟩ :=
          ih ({ acc.1 with
            current_sequence_number :=
              (acc.1.current_sequence_number + 1) % u32size,
            idle_collectors :=
              acc.1.idle_collectors ++ [Collector.mkNew K] },
            acc.2 ++ [((acc.1.current_sequence_number + 1) % u32size,
              ⟨fc.1, fc.2.sorted.1, fc.2.sorted.2.1, fc.2.sorted.2.2,
                sstFileName ((acc.1.current_sequence_number + 1)
                  % u32size)⟩)]) (n + 1) hcur2 hic2
        refine ⟨k2 + 1, ((acc.1.current_sequence_number + 1) % u32size,
          ⟨fc.1, fc.2.sorted.1, fc.2.sorted.2.1, fc.2.sorted.2.2,
            sstFileName ((acc.1.current_sequence_number + 1)
              % u32size)⟩) :: L2, ?_, ?_, ?_, ?_, ?_, g6, g7, g8, g9⟩
        · rw [g1]
          congr 1
          omega
        · rw [g2]
          simp [List.append_assoc]
        · simp [g3]
        · rw [show List.range' (n + 1) (k2 + 1)
              = List.range' (n + 1) 1 ++ List.range' (n + 1 + 1) k2
            from (List.range'_append_1 (n + 1) 1 k2).symm]
          rw [List.map_append, List.map_cons]
          simp only [List.range', List.map_cons, List.map_nil]
          rw [g4]
          rw [show (acc.1.current_sequence_number + 1) % u32size
              = (n + 1) % u32size from by rw [hcur, Nat.mod_add_mod]]
          rfl
        · intro p hp
          rcases List.mem_cons.1 hp with hp | hp
          · subst hp
            exact List.sorted_insertionSort entryLe _
          · exact g5 p hp

theorem finish_eq {K : Type} [LinearOrder K] (cfg : Config K)
    (wb : WriteBatch K) :
    wb.finish cfg
      = (let wb2 : WriteBatch K := { wb with
            new_sst_files := ([] : List (Nat × SstFile K)),
            thread_locals := wb.thread_locals.map
              (fun p => (p.1, ThreadLocalState.init cfg)) }
         let wb3 := scopePhase cfg (harvestTL cfg wb.thread_locals).2 wb2
         let repl := replacementCollectors cfg wb3
         let red := reducePhase repl.2.collectors
           { repl.2 with collectors := repl.1 } wb.new_sst_files
         (⟨red.1.current_sequence_number, red.2.insertionSort sstSeqLe,
           (harvestTL cfg wb.thread_locals).1⟩, red.1)) := rfl

theorem scopePhase_spec {K : Type} [LinearOrder K] (cfg : Config K)
    (pending : List (List (Collector K))) (w : WriteBatch K) (n : Nat)
    (hcur : w.current_sequence_number = n % u32size)
    (hic : ∀ c2 ∈ w.idle_collectors, c2.entries = [])
    (hitc : ∀ c2 ∈ w.idle_thread_local_collectors, c2.entries = []) :
    ∃ (k : Nat) (L : List (Nat × SstFile K)),
      (scopePhase cfg pending w).current_sequence_number
          = (n + k) % u32size ∧
      (scopePhase cfg pending w).new_sst_files = w.new_sst_files ++ L ∧
      L.length = k ∧
      L.map Prod.fst = (List.range' (n + 1) k).map (fun x => x % u32size) ∧
      (∀ p ∈ L, List.Sorted entryLe p.2.entries) ∧
      (scopePhase cfg pending w).thread_locals = w.thread_locals ∧
      (∀ c2 ∈ (scopePhase cfg pending w).idle_collectors,
        c2.entries = []) ∧
      (∀ c2 ∈ (scopePhase cfg pending w).idle_thread_local_collectors,
        c2.entries = []) := by
  unfold scopePhase
  exact scopeOuter_spec cfg pending.enum w n hcur hic hitc

theorem replacementCollectors_spec {K : Type} (cfg : Config K)
    (w : WriteBatch K) (h : ∀ c2 ∈ w.idle_collectors, c2.entries = []) :
    (replacementCollectors cfg w).2.current_sequence_number
        = w.current_sequence_number ∧
    (replacementCollectors cfg w).2.new_sst_files = w.new_sst_files ∧
    (replacementCollectors cfg w).2.thread_locals = w.thread_locals ∧
    (replacementCollectors cfg w).2.idle_thread_local_collectors
      = w.idle_thread_local_collectors ∧
    (replacementCollectors cfg w).2.collectors = w.collectors ∧
    (∀ c2 ∈ (replacementCollectors cfg w).2.idle_collectors,
      c2.entries = []) := by
  unfold replacementCollectors
  exact replacement_spec cfg (List.range cfg.families) ([], w) h

theorem reducePhase_spec {K : Type} [LinearOrder K]
    (old : List (Collector K)) (w : WriteBatch K)
    (ls : List (Nat × SstFile K)) (n : Nat)
    (hcur : w.current_sequence_number = n % u32size)
    (hic : ∀ c2 ∈ w.idle_collectors, c2.entries = []) :
    ∃ (k : Nat) (L : List (Nat × SstFile K)),
      (reducePhase old w ls).1.current_sequence_number
          = (n + k) % u32size ∧
      (reducePhase old w ls).2 = ls ++ L ∧
      L.length = k ∧
      L.map Prod.fst = (List.range' (n + 1) k).map (fun x => x % u32size) ∧
      (∀ p ∈ L, List.Sorted entryLe p.2.entries) ∧
      (reducePhase old w ls).1.new_sst_files = w.new_sst_files ∧
      (reducePhase old w ls).1.thread_locals = w.thread_locals ∧
      (reducePhase old w ls).1.idle_thread_local_collectors
        = w.idle_thread_local_collectors ∧
      (∀ c2 ∈ (reducePhase old w ls).1.idle_collectors,
        c2.entries = []) := by
  unfold reducePhase
  exact reduce_spec old.enum (w, ls) n hcur hic

theorem finish_spec {K : Type} [LinearOrder K] (cfg : Config K)
    (initial : Nat) (wb : WriteBatch K) (h : BatchInv initial wb) :
    (((resultSeqs (wb.finish cfg).1 : List Nat) : Multiset Nat)
        + (((wb.finish cfg).2.new_sst_files.map Prod.fst : List Nat)
            : Multiset Nat)
      = rangeMapped (initial + 1)
          (finishArtifactCount (wb.finish cfg).1 (wb.finish cfg).2)) ∧
    (wb.finish cfg).1.sequence_number
      = (initial + finishArtifactCount (wb.finish cfg).1
          (wb.finish cfg).2) % u32size ∧
    (wb.finish cfg).1.sequence_number
      = (wb.finish cfg).2.current_sequence_number ∧
    SortedSsts (wb.finish cfg).1.new_sst_files ∧
    SortedSsts (wb.finish cfg).2.new_sst_files ∧
    PoolsEmpty (wb.finish cfg).2 := by
  unfold BatchInv SeqInv PoolsEmpty at h
  obtain ⟨⟨hc1, hc2⟩, ⟨hq1, hq2⟩, hsort⟩ := h
  rw [finish_eq cfg wb]
  dsimp only
  set WB2 : WriteBatch K := { wb with
    new_sst_files := ([] : List (Nat × SstFile K)),
    thread_locals := wb.thread_locals.map
      (fun p => (p.1, ThreadLocalState.init cfg)) } with hWB2
  obtain ⟨k1, L1, s1, s2, s3, s4, s5, s6, s7, s8⟩ :=
    scopePhase_spec cfg (harvestTL cfg wb.thread_locals).2 WB2
      (initial + artifactCount wb) hc1 hq1 hq2
  set W3 := scopePhase cfg (harvestTL cfg wb.thread_locals).2 WB2 with hW3
  obtain ⟨r1, r2, r3, r4, r5, r6⟩ := replacementCollectors_spec cfg W3 s7
  set REPL := replacementCollectors cfg W3 with hREPL
  set WB4 : WriteBatch K := { REPL.2 with collectors := REPL.1 } with hWB4
  have hcur4 : WB4.current_sequence_number
      = (initial + artifactCount wb + k1) % u32size := by
    show REPL.2.current_sequence_number = _
    rw [r1, s1]
  have hic4 : ∀ c2 ∈ WB4.idle_collectors, c2.entries = [] := r6
  obtain ⟨k2, L2, t1, t2, t3, t4, t5, t6, t7, t8, t9⟩ :=
    reducePhase_spec REPL.2.collectors WB4 wb.new_sst_files
      (initial + artifactCount wb + k1) hcur4 hic4
  set RED := reducePhase REPL.2.collectors WB4 wb.new_sst_files with hRED
  have hmember : RED.1.new_sst_files = L1 := by
    rw [t6]
    show REPL.2.new_sst_files = L1
    rw [r2, s2]
    rfl
  have hblobs : (harvestTL cfg wb.thread_locals).1 = wb.allBlobFiles :=
    harvestTL_blobs cfg wb.thread_locals
  have hcount : (harvestTL cfg wb.thread_locals).1.length
        + (RED.2.insertionSort sstSeqLe).length
        + RED.1.new_sst_files.length
      = artifactCount wb + k1 + k2 := by
    rw [hblobs, show (RED.2.insertionSort sstSeqLe).length = RED.2.length
        from List.length_insertionSort sstSeqLe RED.2, t2,
      List.length_append, hmember, t3, s3]
    unfold artifactCount
    omega
  refine ⟨?_, ?_, rfl, ?_, ?_, ⟨t9, ?_⟩⟩
  · show ((((harvestTL cfg wb.thread_locals).1.map BlobFile.seq
        ++ (RED.2.insertionSort sstSeqLe).map Prod.fst : List Nat))
          : Multiset Nat)
        + ((RED.1.new_sst_files.map Prod.fst : List Nat) : Multiset Nat)
      = rangeMapped (initial + 1)
          ((harvestTL cfg wb.thread_locals).1.length
            + (RED.2.insertionSort sstSeqLe).length
            + RED.1.new_sst_files.length)
    rw [hcount, hblobs, hmember]
    rw [← Multiset.coe_add]
    have hsortmap : (((RED.2.insertionSort sstSeqLe).map Prod.fst
          : List Nat) : Multiset Nat)
        = (((wb.new_sst_files ++ L2).map Prod.fst : List Nat)
            : Multiset Nat) := by
      refine Multiset.coe_eq_coe.2 ?_
      refine ((List.perm_insertionSort sstSeqLe RED.2).map
        Prod.fst).trans ?_
      rw [t2]
    rw [hsortmap, List.map_append, ← Multiset.coe_add]
    have hL1 : ((L1.map Prod.fst : List Nat) : Multiset Nat)
        = rangeMapped (initial + artifactCount wb + 1) k1 := by
      rw [s4]; rfl
    have hL2 : ((L2.map Prod.fst : List Nat) : Multiset Nat)
        = rangeMapped (initial + artifactCount wb + k1 + 1) k2 := by
      rw [t4]; rfl
    rw [hL1, hL2]
    have hRHS : rangeMapped (initial + 1) (artifactCount wb + k1 + k2)
        = ((wb.allBlobFiles.map BlobFile.seq : List Nat) : Multiset Nat)
          + ((wb.new_sst_files.map Prod.fst : List Nat) : Multiset Nat)
          + rangeMapped (initial + artifactCount wb + 1) k1
          + rangeMapped (initial + artifactCount wb + k1 + 1) k2 := by
      rw [rangeMapped_add (initial + 1) (artifactCount wb + k1) k2,
        rangeMapped_add (initial + 1) (artifactCount wb) k1]
      unfold seqMulti at hc2
      rw [← hc2]
      rw [show initial + 1 + artifactCount wb
          = initial + artifactCount wb + 1 from by omega,
        show initial + 1 + (artifactCount wb + k1)
          = initial + artifactCount wb + k1 + 1 from by omega]
    rw [hRHS]
    abel
  · show RED.1.current_sequence_number
      = (initial + ((harvestTL cfg wb.thread_locals).1.length
          + (RED.2.insertionSort sstSeqLe).length
          + RED.1.new_sst_files.length)) % u32size
    rw [hcount, t1]
    rw [show initial + artifactCount wb + k1 + k2
        = initial + (artifactCount wb + k1 + k2) from by omega]
  · show SortedSsts (RED.2.insertionSort sstSeqLe)
    unfold SortedSsts
    intro p hp
    have hp2 : p ∈ RED.2 :=
      (List.perm_insertionSort sstSeqLe RED.2).subset hp
    rw [t2] at hp2
    rcases List.mem_append.1 hp2 with hp2 | hp2
    · exact hsort p hp2
    · exact t5 p hp2
  · show SortedSsts RED.1.new_sst_files
    unfold SortedSsts
    intro p hp
    rw [hmember] at hp
    exact s5 p hp
  · rw [t8]
    show ∀ c2 ∈ REPL.2.idle_thread_local_collectors, c2.entries = []
    rw [r4]
    exact s8

/-- Claim C2 (amended): for a batch run from sequence number `initial`,
provided the counter does not wrap around 32 bits (`initial` plus the
total number of allocated artifacts stays below `2 ^ 32`), the sequence
numbers stamped on the union of returned blob files and SST files are
pairwise distinct, each allocated by one fetch-add of the shared counter,
and all lie in the half-open interval from `initial` (exclusive) to the
returned `sequence_number` (inclusive), which is the counter value at the
end of `finish`. -/
theorem c2_sequence_numbers_in_range {K : Type} [LinearOrder K]
    (cfg : Config K) (initial : Nat) (ops : List (Op K))
    (hnowrap : initial + finishArtifactCount
        ((applyOps cfg (WriteBatch.new cfg initial) ops).finish cfg).1
        ((applyOps cfg (WriteBatch.new cfg initial) ops).finish cfg).2
      < u32size) :
    (resultSeqs ((applyOps cfg (WriteBatch.new cfg initial)
        ops).finish cfg).1).Nodup ∧
    (∀ s ∈ resultSeqs ((applyOps cfg (WriteBatch.new cfg initial)
        ops).finish cfg).1,
      initial < s ∧ s ≤ ((applyOps cfg (WriteBatch.new cfg initial)
        ops).finish cfg).1.sequence_number) ∧
    ((applyOps cfg (WriteBatch.new cfg initial) ops).finish
        cfg).1.sequence_number
      = initial + finishArtifactCount
          ((applyOps cfg (WriteBatch.new cfg initial) ops).finish cfg).1
          ((applyOps cfg (WriteBatch.new cfg initial) ops).finish cfg).2 := by
  have hinv := applyOps_BatchInv cfg initial ops
  obtain ⟨hm, hseq, hseq2, hs1, hs2, hp⟩ := finish_spec cfg initial _ hinv
  have hplain : rangeMapped (initial + 1) (finishArtifactCount
      ((applyOps cfg (WriteBatch.new cfg initial) ops).finish cfg).1
      ((applyOps cfg (WriteBatch.new cfg initial) ops).finish cfg).2)
      = ((List.range' (initial + 1) (finishArtifactCount
          ((applyOps cfg (WriteBatch.new cfg initial) ops).finish cfg).1
          ((applyOps cfg (WriteBatch.new cfg initial) ops).finish cfg).2)
        : List Nat) : Multiset Nat) := by
    unfold rangeMapped
    have hcong : ∀ x ∈ List.range' (initial + 1) (finishArtifactCount
        ((applyOps cfg (WriteBatch.new cfg initial) ops).finish cfg).1
        ((applyOps cfg (WriteBatch.new cfg initial) ops).finish cfg).2),
        x % u32size = x := by
      intro x hx
      rcases List.mem_range'_1.1 hx with ⟨hx1, hx2⟩
      exact Nat.mod_eq_of_lt (by omega)
    rw [show (List.range' (initial + 1) (finishArtifactCount
        ((applyOps cfg (WriteBatch.new cfg initial) ops).finish cfg).1
        ((applyOps cfg (WriteBatch.new cfg initial) ops).finish
          cfg).2)).map (fun x => x % u32size)
        = List.range' (initial + 1) (finishArtifactCount
          ((applyOps cfg (WriteBatch.new cfg initial) ops).finish cfg).1
          ((applyOps cfg (WriteBatch.new cfg initial) ops).finish cfg).2)
      from (List.map_congr_left hcong).trans (List.map_id _)]
  have hle : ((resultSeqs ((applyOps cfg (WriteBatch.new cfg initial)
      ops).finish cfg).1 : List Nat) : Multiset Nat)
      ≤ rangeMapped (initial + 1) (finishArtifactCount
        ((applyOps cfg (WriteBatch.new cfg initial) ops).finish cfg).1
        ((applyOps cfg (WriteBatch.new cfg initial) ops).finish cfg).2) := by
    rw [← hm]
    exact Multiset.le_add_right _ _
  refine ⟨?_, ?_, ?_⟩
  · refine Multiset.coe_nodup.1 (Multiset.nodup_of_le hle ?_)
    rw [hplain]
    exact Multiset.coe_nodup.2 (List.nodup_range' _ _)
  · intro s hs
    have hsm := Multiset.mem_of_le hle (Multiset.mem_coe.2 hs)
    rw [hplain] at hsm
    rcases List.mem_range'_1.1 (Multiset.mem_coe.1 hsm) with ⟨h1, h2⟩
    refine ⟨by omega, ?_⟩
    rw [hseq, Nat.mod_eq_of_lt hnowrap]
    omega
  · rw [hseq, Nat.mod_eq_of_lt hnowrap]

/-- Witness for claim C2 at a concrete one-put batch. -/
theorem c2_witness :
    (resultSeqs ((applyOps cfgRoomy (WriteBatch.new cfgRoomy 0)
        [Op.put 0 0 (0 : Nat) [1]]).finish cfgRoomy).1).Nodup ∧
    (∀ s ∈ resultSeqs ((applyOps cfgRoomy (WriteBatch.new cfgRoomy 0)
        [Op.put 0 0 (0 : Nat) [1]]).finish cfgRoomy).1,
      0 < s ∧ s ≤ ((applyOps cfgRoomy (WriteBatch.new cfgRoomy 0)
        [Op.put 0 0 (0 : Nat) [1]]).finish cfgRoomy).1.sequence_number) ∧
    ((applyOps cfgRoomy (WriteBatch.new cfgRoomy 0)
        [Op.put 0 0 (0 : Nat) [1]]).finish cfgRoomy).1.sequence_number
      = 0 + finishArtifactCount
          ((applyOps cfgRoomy (WriteBatch.new cfgRoomy 0)
            [Op.put 0 0 (0 : Nat) [1]]).finish cfgRoomy).1
          ((applyOps cfgRoomy (WriteBatch.new cfgRoomy 0)
            [Op.put 0 0 (0 : Nat) [1]]).finish cfgRoomy).2 :=
  c2_sequence_numbers_in_range cfgRoomy 0 [Op.put 0 0 (0 : Nat) [1]]
    (by decide)

/-- Counterexample for claim C2 as stated: starting a batch at
`u32::MAX`, the single SST produced by `finish` is stamped 0, which does
not lie in the interval above `u32::MAX`. -/
theorem c2_wraparound_counterexample :
    (((applyOps cfgRoomy (WriteBatch.new cfgRoomy (u32size - 1))
        [Op.put 0 0 (0 : Nat) [1]]).finish cfgRoomy).1.new_sst_files.map
        Prod.fst = [0]) ∧
    ((applyOps cfgRoomy (WriteBatch.new cfgRoomy (u32size - 1))
        [Op.put 0 0 (0 : Nat) [1]]).finish cfgRoomy).1.sequence_number
      = 0 ∧
    ¬ (u32size - 1 < 0) := by
  refine ⟨by decide, by decide, by decide⟩

/-- Claim C6: every SST file the batch produces, whether from a mid-batch
shared-collector overflow, from the flushes inside `finish`, or from the
final reduction, carries an entry slice sorted non-decreasingly by key,
because every call site of `create_sst_file` passes the sorted view of a
collector. -/
theorem c6_sst_entries_sorted {K : Type} [LinearOrder K] (cfg : Config K)
    (initial : Nat) (ops : List (Op K)) :
    SortedSsts ((applyOps cfg (WriteBatch.new cfg initial) ops).finish
      cfg).1.new_sst_files ∧
    SortedSsts ((applyOps cfg (WriteBatch.new cfg initial) ops).finish
      cfg).2.new_sst_files := by
  have hinv := applyOps_BatchInv cfg initial ops
  obtain ⟨-, -, -, hs1, hs2, -⟩ := finish_spec cfg initial _ hinv
  exact ⟨hs1, hs2⟩

/-- Witness for claim C6 at a concrete two-mutation batch. -/
theorem c6_witness :
    List.Sorted entryLe (((((applyOps cfgRoomy (WriteBatch.new cfgRoomy 0)
        [Op.put 0 0 (0 : Nat) [1], Op.del 0 0 (2 : Nat)]).finish
        cfgRoomy).1.new_sst_files).getD 0
        (0, ⟨0, [], 0, 0, ""⟩)).2.entries) :=
  (c6_sst_entries_sorted cfgRoomy 0
    [Op.put 0 0 (0 : Nat) [1], Op.del 0 0 (2 : Nat)]).1 _ (by decide)

/-- Claim C8: in every state reachable by a trace of mutations, and in the
state left behind by `finish`, both idle pools hold only empty collectors:
every collector pushed onto a pool was drained or cleared beforehand. -/
theorem c8_idle_pools_hold_only_empty_collectors {K : Type} [LinearOrder K]
    (cfg : Config K) (initial : Nat) (ops : List (Op K)) :
    (∀ c ∈ (applyOps cfg (WriteBatch.new cfg initial)
        ops).idle_collectors, c.is_empty = true) ∧
    (∀ c ∈ (applyOps cfg (WriteBatch.new cfg initial)
        ops).idle_thread_local_collectors, c.is_empty = true) ∧
    (∀ c ∈ ((applyOps cfg (WriteBatch.new cfg initial) ops).finish
        cfg).2.idle_collectors, c.is_empty = true) ∧
    (∀ c ∈ ((applyOps cfg (WriteBatch.new cfg initial) ops).finish
        cfg).2.idle_thread_local_collectors, c.is_empty = true) := by
  have hinv := applyOps_BatchInv cfg initial ops
  have hfin := (finish_spec cfg initial _ hinv).2.2.2.2.2
  unfold BatchInv PoolsEmpty at hinv
  unfold PoolsEmpty at hfin
  refine ⟨?_, ?_, ?_, ?_⟩
  · intro c hc
    simp [Collector.is_empty, hinv.2.1.1 c hc]
  · intro c hc
    simp [Collector.is_empty, hinv.2.1.2 c hc]
  · intro c hc
    simp [Collector.is_empty, hfin.1 c hc]
  · intro c hc
    simp [Collector.is_empty, hfin.2 c hc]

/-- Witness for claim C8 at a concrete one-put batch. -/
theorem c8_witness :
    (((applyOps cfgRoomy (WriteBatch.new cfgRoomy 0)
        [Op.put 0 0 (0 : Nat) [1]]).finish
        cfgRoomy).2.idle_collectors.getD 0
        (Collector.mkNew Nat)).is_empty = true :=
  (c8_idle_pools_hold_only_empty_collectors cfgRoomy 0
    [Op.put 0 0 (0 : Nat) [1]]).2.2.1 _ (by decide)

/-- Claim C1, evaluated at the failing input: with a single-byte shared
collector capacity, one accepted put is flushed during the scope phase of
`finish`, the SST it produces lands on the member list that was already
taken into the local result list, and the returned `FinishResult` extracts
to nothing: the mutation is lost.  The stranded SST on the member list of
the final state holds exactly the lost entry. -/
theorem c1_entry_lost_in_finish :
    acceptedMuts [Op.put 0 0 (0 : Nat) [5]]
        ≠ extractMuts (((applyOps cfgTiny (WriteBatch.new cfgTiny 0)
            [Op.put 0 0 (0 : Nat) [5]]).finish cfgTiny).1.new_sst_files)
          (((applyOps cfgTiny (WriteBatch.new cfgTiny 0)
            [Op.put 0 0 (0 : Nat) [5]]).finish
            cfgTiny).1.new_blob_files) ∧
    ((applyOps cfgTiny (WriteBatch.new cfgTiny 0)
        [Op.put 0 0 (0 : Nat) [5]]).finish cfgTiny).1.new_sst_files
      = [] ∧
    (((applyOps cfgTiny (WriteBatch.new cfgTiny 0)
        [Op.put 0 0 (0 : Nat) [5]]).finish cfgTiny).2.new_sst_files.map
        Prod.fst) = [1] ∧
    extractMuts (((applyOps cfgTiny (WriteBatch.new cfgTiny 0)
        [Op.put 0 0 (0 : Nat) [5]]).finish cfgTiny).2.new_sst_files)
      (((applyOps cfgTiny (WriteBatch.new cfgTiny 0)
        [Op.put 0 0 (0 : Nat) [5]]).finish cfgTiny).1.new_blob_files)
      = acceptedMuts [Op.put 0 0 (0 : Nat) [5]] := by
  refine ⟨by decide, by decide, by decide, by decide⟩

end TurboPersistence
